import Mathlib

/-!
# Verification of the tracklist → cue sheet pipeline

Shallow embedding of the two Python scripts of the repository:

* `cue_generator.py` — turns a human-authored tracklist into a `.cue` sheet
  (`is_timestamp`, `get_min_sec_from_timestamp`, `get_string1`, `get_string2`,
  `parse_input_file`, and the `__main__` write step).
* `postprocess_cue_tracks.py` — parses a `.cue` sheet (`parse_cue`), matches
  track files (`TRACK_PREFIX_RE`, `find_track_file`), and normalizes filenames
  (the two `re.sub` calls in `process` plus `sanitize_filename`).

Python string primitives (`str.split`, `str.strip`, `str.startswith`,
`str.zfill`, `str.partition`, `int(...)`, `shlex.split`, `re` patterns used
here, `pathlib.PurePath.stem`) are embedded as executable Lean functions on
character lists.  The embedding models the ASCII fragment of Python's
character classes (`str.isdigit`, whitespace), which covers all text the
scripts themselves produce and all concrete inputs used below.
-/

namespace UsefulScripts

/-! ## Python string primitives -/

/-- Python whitespace characters (the ASCII members of `str.split()` /
`str.strip()` whitespace, which coincide with the regex class `\s`). -/
def isPyWs (c : Char) : Bool :=
  c = ' ' || c = '\t' || c = '\n' || c = '\r' || c = '\x0b' || c = '\x0c'

/-- The double-quote character. -/
def dq : Char := Char.ofNat 34

/-- The backslash character. -/
def bslash : Char := Char.ofNat 92

/-- The single-quote character. -/
def squote : Char := Char.ofNat 39

/-- `str.strip()` on a character list: drop whitespace from both ends. -/
def pyStripChars (cs : List Char) : List Char :=
  ((cs.dropWhile isPyWs).reverse.dropWhile isPyWs).reverse

/-- `str.strip()`. -/
def pyStrip (s : String) : String :=
  (pyStripChars s.data).asString

/-- `str.strip('"')` on a character list: drop double quotes from both ends. -/
def stripQuotesChars (cs : List Char) : List Char :=
  ((cs.dropWhile (· = dq)).reverse.dropWhile (· = dq)).reverse

/-- `str.strip('"')`. -/
def stripQuotes (s : String) : String :=
  (stripQuotesChars s.data).asString

/-- `str.startswith(p)`. -/
def pyStartsWith (s p : String) : Bool :=
  p.data.isPrefixOf s.data

/-- `str.upper()` (ASCII). -/
def pyUpper (s : String) : String :=
  (s.data.map Char.toUpper).asString

/-- Helper for `pySplitFuel`: prepend a character to the first field. -/
def consHead (c : Char) : List (List Char) → List (List Char)
  | [] => [[c]]
  | f :: fs => (c :: f) :: fs

/-- Python `str.split(sep)` for a non-empty separator, scanning left to right
over non-overlapping occurrences.  Fueled so that it is structurally
recursive (the fuel is always at least the length of the list). -/
def pySplitFuel (sep : List Char) : Nat → List Char → List (List Char)
  | 0, cs => [cs]
  | fuel + 1, cs =>
    match cs with
    | [] => [[]]
    | c :: rest =>
      if sep ≠ [] ∧ sep.isPrefixOf (c :: rest) then
        [] :: pySplitFuel sep fuel ((c :: rest).drop sep.length)
      else
        consHead c (pySplitFuel sep fuel rest)

/-- Python `str.split(sep)` on character lists. -/
def pySplitChars (sep cs : List Char) : List (List Char) :=
  pySplitFuel sep cs.length cs

/-- Python `s.split(sep)` (a non-empty separator; Python raises on `sep=""`,
which never occurs in the scripts). -/
def pySplit (s sep : String) : List String :=
  (pySplitChars sep.data s.data).map List.asString

/-- The current whitespace-delimited token. -/
def wsTok (cs : List Char) : List Char :=
  cs.takeWhile (fun c => !(isPyWs c))

/-- What remains after the current token and the following whitespace run. -/
def wsRest (cs : List Char) : List Char :=
  (cs.dropWhile (fun c => !(isPyWs c))).dropWhile isPyWs

/-- Python `s.split(maxsplit=2)` (split on whitespace runs, at most three
fields, the third field keeping the remainder verbatim after the whitespace
run that follows the second field). -/
def pySplitWsMax2Chars (cs : List Char) : List (List Char) :=
  if cs.dropWhile isPyWs = [] then []
  else if wsRest (cs.dropWhile isPyWs) = [] then
    [wsTok (cs.dropWhile isPyWs)]
  else if wsRest (wsRest (cs.dropWhile isPyWs)) = [] then
    [wsTok (cs.dropWhile isPyWs), wsTok (wsRest (cs.dropWhile isPyWs))]
  else
    [wsTok (cs.dropWhile isPyWs), wsTok (wsRest (cs.dropWhile isPyWs)),
      wsRest (wsRest (cs.dropWhile isPyWs))]

/-- Python `s.split(maxsplit=2)`. -/
def pySplitWsMax2 (s : String) : List String :=
  (pySplitWsMax2Chars s.data).map List.asString

/-- Python `s.partition(' ')[2]`: the text after the first space, or `""`
when there is no space. -/
def pyPartitionAfterSpace (s : String) : String :=
  ((s.data.dropWhile (· ≠ ' ')).drop 1).asString

/-- Numeric value of a digit character. -/
def digitVal (c : Char) : Nat := c.toNat - 48

/-- Value of a decimal digit string (most significant digit first). -/
def natOfDigits (cs : List Char) : Nat :=
  cs.foldl (fun a c => 10 * a + digitVal c) 0

/-- Validity of the digit part of a Python `int` literal: digits with single
underscores strictly between digits.  The flag records whether a digit is
required next (at the start and after an underscore). -/
def digitsU : Bool → List Char → Bool
  | needDigit, [] => !needDigit
  | needDigit, c :: rest =>
    if c.isDigit then digitsU false rest
    else if c = '_' && !needDigit then digitsU true rest
    else false

/-- `digitsU` accepts the empty list only with `needDigit = false`; a valid
literal body must be non-empty. -/
def intBodyValid (cs : List Char) : Bool :=
  cs ≠ [] && digitsU true cs

inductive PyError where
  | invalidTimestamp (msg : String)
  | valueError (msg : String)
  | indexError (msg : String)
  deriving DecidableEq, Repr

/-- Python `int(s)`: strip whitespace, optional sign, then digits (with the
underscore rule); raises `ValueError` otherwise. -/
def pyInt (s : String) : Except PyError Int :=
  let cs := pyStripChars s.data
  let signed : Int × List Char :=
    match cs with
    | c :: rest =>
      if c = '+' then (1, rest)
      else if c = '-' then (-1, rest)
      else (1, cs)
    | [] => (1, [])
  if intBodyValid signed.2 then
    .ok (signed.1 * (natOfDigits (signed.2.filter (· ≠ '_')) : Int))
  else
    .error (.valueError ("invalid literal for int() with base 10: " ++ s))

/-- Python `str.zfill(width)`: left-pad with zeros to `width`, keeping a
leading sign in front of the padding. -/
def pyZfill (width : Nat) (s : String) : String :=
  if s.length ≥ width then s
  else
    let (sign, body) : List Char × List Char :=
      match s.data with
      | c :: rest => if c = '+' || c = '-' then ([c], rest) else ([], s.data)
      | [] => ([], [])
    (sign ++ List.replicate (width - s.length) '0' ++ body).asString

/-- Substring occurrence test on character lists. -/
def containsChars (needle : List Char) : List Char → Bool
  | [] => needle.isEmpty
  | c :: rest => needle.isPrefixOf (c :: rest) || containsChars needle rest

/-- Python `needle in hay` on strings (substring containment). -/
def strContains (hay needle : String) : Bool :=
  containsChars needle.data hay.data

/-! ## `cue_generator.py` -/

/-- `is_timestamp`: every character is a digit or a colon. -/
def is_timestamp (s : String) : Bool :=
  s.data.all (fun c => c.isDigit || c = ':')

/-- `get_min_sec_from_timestamp`: split on `:`; two fields give
`(minutes, seconds)`, three fields fold hours into minutes, any other
field count raises `Exception(f"Invalid timestamp: ...")`.  The `int(...)`
calls may raise `ValueError` on their own. -/
def get_min_sec_from_timestamp (s : String) : Except PyError (Int × Int) :=
  if (pySplit s ":").length = 2 then do
    let a ← pyInt ((pySplit s ":").getD 0 "")
    let b ← pyInt ((pySplit s ":").getD 1 "")
    .ok (a, b)
  else if (pySplit s ":").length = 3 then do
    let a ← pyInt ((pySplit s ":").getD 0 "")
    let b ← pyInt ((pySplit s ":").getD 1 "")
    let c ← pyInt ((pySplit s ":").getD 2 "")
    .ok (a * 60 + b, c)
  else
    .error (.invalidTimestamp ("Invalid timestamp: " ++ s))

/-- `get_string1`: `full_line.split(" - ")[0].split(":")[-1][3:]`. -/
def get_string1 (l : String) : String :=
  (((pySplit ((pySplit l " - ").headD "") ":").getLastD "")).drop 3

/-- `get_string2`: `full_line.split(" - ")[1]`, or `"UNKNOWN"` when the
separator is absent (the `except` branch). -/
def get_string2 (l : String) : String :=
  match (pySplit l " - ").get? 1 with
  | some s => s
  | none => "UNKNOWN"

/-- `line.split(" ")[0]`: the text before the first space. -/
def firstTok (l : String) : String :=
  (pySplit l " ").headD ""

/-- The serialized album-title line `TITLE "<text>"`. -/
def albumTitleLine (t : String) : String :=
  "TITLE \"" ++ t ++ "\""

/-- The album-title emission of `parse_input_file`:
`f"TITLE \"{line.split(\"Title: \")[-1]}\""`. -/
def titleLineOut (line : String) : String :=
  albumTitleLine ((pySplit line "Title: ").getLastD "")

/-- `f"  TRACK {str(track_counter).zfill(2)} AUDIO"`. -/
def trackHeaderLine (k : Nat) : String :=
  "  TRACK " ++ pyZfill 2 (Nat.repr k) ++ " AUDIO"

/-- `f"    TITLE \"{title}\""`. -/
def trackTitleLine (t : String) : String :=
  "    TITLE \"" ++ t ++ "\""

/-- `f"    PERFORMER \"{artist}\""`. -/
def trackPerformerLine (p : String) : String :=
  "    PERFORMER \"" ++ p ++ "\""

/-- The zero-padded `MM:SS` rendering used by the `INDEX` line:
`f"{str(minutes).zfill(2)}:{str(seconds).zfill(2)}"`. -/
def indexToken (m s : Int) : String :=
  pyZfill 2 (toString m) ++ ":" ++ pyZfill 2 (toString s)

/-- `f"    INDEX 01 {...}:{...}"`. -/
def indexLine (m s : Int) : String :=
  "    INDEX 01 " ++ indexToken m s

/-- The loop body of `parse_input_file`.  The emitted text is kept as the
list of `\n`-terminated lines appended to `return_string` (input lines are
newline-stripped by `read_input_file`, so each f-string append contributes
exactly one line of the output file).  `oaf` is the `ORDER_ARTIST_FIRST`
mode flag.  A raised exception aborts the whole recursion, discarding the
accumulated output, exactly as in Python. -/
def parse_go (oaf : Bool) : Nat → List String → List String →
    Except PyError (List String)
  | _, acc, [] => .ok acc
  | counter, acc, line :: rest =>
    if pyStartsWith line "Title:" || pyStartsWith line "# Title:" then
      parse_go oaf counter (acc ++ [titleLineOut line]) rest
    else if line = "" then
      parse_go oaf counter acc rest
    else if is_timestamp (firstTok line) then
      match get_min_sec_from_timestamp (firstTok line) with
      | .error e => .error e
      | .ok (m, s) =>
        parse_go oaf (counter + 1)
          (acc ++ [trackHeaderLine counter,
                   trackTitleLine (if oaf then get_string2 line else get_string1 line),
                   trackPerformerLine (if oaf then get_string1 line else get_string2 line),
                   indexLine m s]) rest
    else
      parse_go oaf counter acc rest

/-- `parse_input_file`, starting with `track_counter = 1` and an empty
`return_string`. -/
def parse_input_file (oaf : Bool) (contents : List String) :
    Except PyError (List String) :=
  parse_go oaf 1 [] contents

/-- The `__main__` write step: the output sheet is written only when
`parse_input_file` returns without raising; any exception is caught,
printed, and the process exits without touching the output file. -/
def generate_output (oaf : Bool) (contents : List String) :
    Option (List String) :=
  (parse_input_file oaf contents).toOption

/-- A track record of the generation direction, as named by the claim:
title, performer, and the already-parsed minutes/seconds. -/
structure GenTrack where
  title : String
  performer : String
  minutes : Nat
  seconds : Nat
  deriving DecidableEq, Repr

/-- The per-track blocks emitted by `parse_input_file` for a sequence of
track records, numbering from `k` (the serializer side of the round-trip:
identical line builders to `parse_go`). -/
def serializeBlocks : Nat → List GenTrack → List String
  | _, [] => []
  | k, g :: gs =>
    trackHeaderLine k :: trackTitleLine g.title ::
      trackPerformerLine g.performer ::
      indexLine (g.minutes : Int) (g.seconds : Int) ::
      serializeBlocks (k + 1) gs

/-- The full sheet text emitted by `parse_input_file` for an album title and
a sequence of track records: the `TITLE` line followed by the track blocks
numbered from 1. -/
def serializeSheet (albumTitle : String) (tracks : List GenTrack) :
    List String :=
  albumTitleLine albumTitle :: serializeBlocks 1 tracks

/-! ## `shlex.split` (POSIX mode, whitespace split) -/

/-- `shlex` whitespace (`' \t\r\n'`). -/
def isShWs (c : Char) : Bool :=
  c = ' ' || c = '\t' || c = '\r' || c = '\n'

/-- Close the pending token, if any. -/
def pushTok (tok : Option (List Char)) (acc : List (List Char)) :
    List (List Char) :=
  match tok with
  | none => acc
  | some t => acc ++ [t]

/-- State of the `shlex` scanner: outside quotes, inside single quotes,
inside double quotes, and the two escape states (after a backslash seen
outside quotes / inside double quotes), mirroring CPython's
`shlex.read_token` states. -/
inductive ShMode where
  | norm
  | sq
  | dqm
  | esc
  | escDq
  deriving DecidableEq, Repr

/-- The `shlex.split` scanner (POSIX rules, `whitespace_split=True`):
whitespace separates tokens; a backslash escapes the next character
outside quotes; single quotes are literal regions; inside double quotes a
backslash escapes only `"` and `\` and is otherwise kept literally; an
unterminated quote raises `No closing quotation`, a trailing escape raises
`No escaped character`. -/
def shlexAux : ShMode → Option (List Char) → List (List Char) → List Char →
    Except String (List (List Char))
  | .norm, tok, acc, [] => .ok (pushTok tok acc)
  | .norm, tok, acc, c :: cs =>
    if isShWs c then shlexAux .norm none (pushTok tok acc) cs
    else if c = squote then shlexAux .sq (some (tok.getD [])) acc cs
    else if c = dq then shlexAux .dqm (some (tok.getD [])) acc cs
    else if c = bslash then shlexAux .esc (some (tok.getD [])) acc cs
    else shlexAux .norm (some (tok.getD [] ++ [c])) acc cs
  | .esc, _, _, [] => .error "No escaped character"
  | .esc, tok, acc, c :: cs =>
    shlexAux .norm (some (tok.getD [] ++ [c])) acc cs
  | .sq, _, _, [] => .error "No closing quotation"
  | .sq, tok, acc, c :: cs =>
    if c = squote then shlexAux .norm (some (tok.getD [])) acc cs
    else shlexAux .sq (some (tok.getD [] ++ [c])) acc cs
  | .dqm, _, _, [] => .error "No closing quotation"
  | .dqm, tok, acc, c :: cs =>
    if c = dq then shlexAux .norm (some (tok.getD [])) acc cs
    else if c = bslash then shlexAux .escDq (some (tok.getD [])) acc cs
    else shlexAux .dqm (some (tok.getD [] ++ [c])) acc cs
  | .escDq, _, _, [] => .error "No escaped character"
  | .escDq, tok, acc, c :: cs =>
    if c = dq || c = bslash then shlexAux .dqm (some (tok.getD [] ++ [c])) acc cs
    else shlexAux .dqm (some (tok.getD [] ++ [bslash, c])) acc cs

/-- `shlex.split(s)`. -/
def shlexSplit (s : String) : Except String (List String) :=
  (shlexAux .norm none [] s.data).map (List.map List.asString)

/-! ## `postprocess_cue_tracks.py`: the sheet parser `parse_cue` -/

/-- The album-level fields of `parse_cue` (`PERFORMER`, `TITLE`, `REM`,
`FILE`).  `REM` is an insertion-ordered key/value mapping, as a Python
dict. -/
structure CueAlbum where
  performerA : Option String := none
  titleA : Option String := none
  remA : List (String × String) := []
  fileA : Option String := none
  deriving DecidableEq, Repr

/-- One track block of `parse_cue`. -/
structure CueTrack where
  number : Int
  titleT : Option String := none
  performerT : Option String := none
  indexT : Option (List String) := none
  deriving DecidableEq, Repr

/-- The running state of the `parse_cue` loop. -/
structure CueState where
  album : CueAlbum
  tracks : List CueTrack
  current : Option CueTrack
  deriving DecidableEq, Repr

/-- The parsed document: album fields plus the closed track list. -/
structure CueDoc where
  album : CueAlbum
  tracks : List CueTrack
  deriving DecidableEq, Repr

/-- Python dict assignment `m[k] = v`: replace in place or append. -/
def dictSet (m : List (String × String)) (k v : String) :
    List (String × String) :=
  if m.any (fun p => p.1 = k) then
    m.map (fun p => if p.1 = k then (k, v) else p)
  else m ++ [(k, v)]

/-- `re.search(r'\"([^\"]+)\"', line)`: the first maximal non-empty
double-quoted run, scanning left to right. -/
def firstQuoted : List Char → Option (List Char)
  | [] => none
  | c :: rest =>
    if c = dq then
      let content := rest.takeWhile (· ≠ dq)
      let after := rest.dropWhile (· ≠ dq)
      match content, after with
      | _ :: _, _ :: _ => some content
      | _, _ => firstQuoted rest
    else firstQuoted rest

/-- Tokenization of one `parse_cue` line:
`shlex.split(line) if '"' in line else line.split(maxsplit=2)`. -/
def cueTokens (line : String) : Except PyError (List String) :=
  if line.data.any (fun c => c = dq) then
    match shlexSplit line with
    | .ok ps => .ok ps
    | .error m => .error (.valueError m)
  else
    .ok (pySplitWsMax2 line)

/-- One iteration of the `parse_cue` loop on a raw input line. -/
def cueLine (st : CueState) (raw : String) : Except PyError CueState := do
  let line := pyStrip raw
  if line = "" then
    return st
  let parts ← cueTokens line
  match parts with
  | [] => .error (.indexError "list index out of range")
  | p0 :: _ =>
    let key := pyUpper p0
    let value := stripQuotes (pyStrip (pyPartitionAfterSpace line))
    if key = "REM" then
      if parts.length ≥ 3 then
        let r := dictSet st.album.remA (parts.getD 1 "") (stripQuotes (parts.getD 2 ""))
        return { st with album := { st.album with remA := r } }
      else
        return st
    else if key = "PERFORMER" && st.current.isNone then
      return { st with album := { st.album with performerA := some value } }
    else if key = "TITLE" && st.current.isNone then
      return { st with album := { st.album with titleA := some value } }
    else if key = "FILE" then
      match firstQuoted line.data with
      | some content =>
        return { st with album := { st.album with fileA := some content.asString } }
      | none =>
        match parts.get? 1 with
        | some p1 =>
          return { st with album := { st.album with fileA := some (stripQuotes p1) } }
        | none => .error (.indexError "list index out of range")
    else if key = "TRACK" then
      match parts.get? 1 with
      | some p1 => do
        let num ← pyInt p1
        return { st with
          tracks := st.tracks ++ st.current.toList,
          current := some { number := num } }
      | none => .error (.indexError "list index out of range")
    else if key = "PERFORMER" then
      match st.current with
      | some tr =>
        return { st with current := some { tr with performerT := some value } }
      | none => return st
    else if key = "TITLE" then
      match st.current with
      | some tr =>
        return { st with current := some { tr with titleT := some value } }
      | none => return st
    else if key = "INDEX" then
      match st.current with
      | some tr =>
        return { st with current := some { tr with indexT := some (parts.drop 1) } }
      | none => return st
    else
      return st

/-- `parse_cue`: fold the loop over the file's lines, then close the open
track block. -/
def parse_cue (lines : List String) : Except PyError CueDoc := do
  let st ← lines.foldlM cueLine ⟨{}, [], none⟩
  return ⟨st.album, st.tracks ++ st.current.toList⟩

/-! ## `postprocess_cue_tracks.py`: track-file matcher and filename
normalizer

`TRACK_PREFIX_RE = re.compile(r'^\s*0*(\d{1,3})\s*[-_.\s]+\s*(.+)$')`.

The regex is embedded by its matching behaviour (with Python backtracking
semantics worked out):

* `\s*` takes the leading whitespace; the following digits are a maximal
  digit run (a digit can never be consumed by `[-_.\s]+`), of which `0*`
  takes leading zeros and `(\d{1,3})` the remaining one-to-three digits —
  so a run with more than three digits after its leading zeros never
  matches, and `int(group(1))` is the numeric value of the whole run;
* `\s*[-_.\s]+\s*` is the language of non-empty runs over `-`, `_`, `.`
  and whitespace (as `\s` is contained in the class);
* `(.+)$` requires at least one remaining character, with `.` excluding
  `'\n'` and `$` matching at the end or before one final newline. -/

/-- The character class `[-_.\s]`. -/
def isDelim (c : Char) : Bool :=
  c = '-' || c = '_' || c = '.' || isPyWs c

/-- Whether `(.+)$` matches a suffix: non-empty and newline-free, or a
non-empty newline-free part followed by one final newline. -/
def tailDotPlus (u : List Char) : Bool :=
  match u.getLast? with
  | none => false
  | some last =>
    if last = '\n' then
      u.dropLast ≠ [] && u.dropLast.all (· ≠ '\n')
    else
      u.all (· ≠ '\n')

/-- `TRACK_PREFIX_RE.match(name)`, returning `int(m.group(1))` when the
regex matches. -/
def trackPrefixNum (name : String) : Option Nat :=
  let cs := name.data.dropWhile isPyWs
  let run := cs.takeWhile Char.isDigit
  let rest := cs.dropWhile Char.isDigit
  if run = [] then none
  else
    let lz := (run.takeWhile (· = '0')).length
    if run.length - lz > 3 then none
    else
      let j := (rest.takeWhile isDelim).length
      if j ≥ 1 && (List.range' 1 j).any (fun i => tailDotPlus (rest.drop i)) then
        some (natOfDigits run)
      else none

/-- `find_track_file`: candidates are the glob listing of the tracks
directory (the source lists the directory twice with the same pattern, so
the singleton test `len(candidates) == 1 and len(list(glob)) == 1`
collapses to a single length test).  First candidate whose
`TRACK_PREFIX_RE` number equals the track number, else first candidate
containing the zero-padded number, else the singleton fallback. -/
def find_track_file (candidates : List String) (track_num : Nat) :
    Option String :=
  let padded := pyZfill 2 (Nat.repr track_num)
  match candidates.find? (fun c => trackPrefixNum c = some track_num) with
  | some c => some c
  | none =>
    match candidates.find? (fun c => strContains c padded) with
    | some c => some c
    | none =>
      if candidates.length = 1 then candidates.head? else none

/-- The find calls issued by the `process` loop over the tracks of the
sheet, one per track number, against the same directory listing. -/
def processFound (candidates : List String) (nums : List Nat) :
    List (Option String) :=
  nums.map (find_track_file candidates)

/-- `re.sub(r'^\s*0*%d\s*[-_.\s]+' % tn, '', name)` (and, with
`cls := isPyWs`, `re.sub(r'^\s*0*%d\s+' % tn, '', name)`): remove the
matched prefix when the anchored pattern matches, otherwise return the
string unchanged.  Backtracking semantics: the leading whitespace, the
zero run, and the literal decimal digits of `tn` are forced, and the
trailing class run is consumed maximally (the `IGNORECASE` flag is
irrelevant as the pattern contains no letters). -/
def subNumPrefix (cls : Char → Bool) (tn : Nat) (name : String) : String :=
  let cs := name.data
  let cs1 := cs.dropWhile isPyWs
  let cs2 := cs1.dropWhile (· = '0')
  if tn = 0 then
    if cs1.takeWhile (· = '0') = [] then name
    else if cs2.takeWhile cls = [] then name
    else (cs2.dropWhile cls).asString
  else
    let ds := (Nat.repr tn).data
    if ds.isPrefixOf cs2 then
      let cs3 := cs2.drop ds.length
      if cs3.takeWhile cls = [] then name
      else (cs3.dropWhile cls).asString
    else name

/-- The first `re.sub` of `process` (delimiter run after the number). -/
def stripPrefixSub1 (tn : Nat) (name : String) : String :=
  subNumPrefix isDelim tn name

/-- The second `re.sub` of `process` (whitespace run after the number). -/
def stripPrefixSub2 (tn : Nat) (name : String) : String :=
  subNumPrefix isPyWs tn name

/-- `sanitize_filename`: drop `/ ? % : * | " < >` and control characters
everywhere, then strip surrounding whitespace. -/
def badFileChar (c : Char) : Bool :=
  c = '/' || c = '?' || c = '%' || c = ':' || c = '*' || c = '|' ||
    c = dq || c = '<' || c = '>' || decide (c.toNat ≤ 0x1f)

def sanitize_filename (name : String) : String :=
  (pyStripChars (name.data.filter (fun c => ¬ badFileChar c))).asString

/-- `pathlib.PurePath(s).stem` for a bare final path component (no `/`
occurs in the directory-listing names this is applied to).  The string
`"."` is the current-directory component, which `pathlib` drops, leaving
an empty `name` and hence an empty stem; every other single component is
its own `name`, and the stem cuts the last suffix, where the last dot
counts only strictly inside the name. -/
def pathStem (s : String) : String :=
  if s = "." then ""
  else
    let cs := s.data
    let lastDot := (cs.enum.filterMap
      (fun p => if p.2 = '.' then some p.1 else none)).getLast?
    match lastDot with
    | some i => if 0 < i ∧ i < cs.length - 1 then (cs.take i).asString else s
    | none => s

/-- The base-name computation of `process` for a resolved file `name` of
track `tn` with cue title `ttitle`: the two `re.sub` prefix removals, the
extension drop via `Path(...).stem` (with the title substituted when the
stem is empty), and `sanitize_filename` on `stem or ttitle`. -/
def outStem (name : String) (tn : Nat) (ttitle : String) : String :=
  let base1 := stripPrefixSub1 tn name
  let base2 := stripPrefixSub2 tn base1
  let stem0 := pathStem base2
  let stem1 := if stem0 = "" then ttitle else stem0
  sanitize_filename (if stem1 = "" then ttitle else stem1)

/-! ## Claim-side definitions (for refinement comparisons)

These follow the words of the claims being checked, not the source; each
is compared against the source-derived definition above. -/

/-- Following C2's words: a candidate name matching "optional leading
zeros, then digits, then one or more of `-`, `_`, `.`, or whitespace, then
the remainder", with the parsed leading number returned. -/
def claimPrefixNum (name : String) : Option Nat :=
  let run := name.data.takeWhile Char.isDigit
  let rest := name.data.dropWhile Char.isDigit
  match run, rest with
  | [], _ => none
  | _ :: _, c :: _ => if isDelim c then some (natOfDigits run) else none
  | _ :: _, [] => none

/-- Following C2's words: the three layers in order, first match wins,
with the claim's prefix pattern. -/
def claimFind (candidates : List String) (track_num : Nat) : Option String :=
  let padded := pyZfill 2 (Nat.repr track_num)
  match candidates.find? (fun c => claimPrefixNum c = some track_num) with
  | some c => some c
  | none =>
    match candidates.find? (fun c => strContains c padded) with
    | some c => some c
    | none =>
      if candidates.length = 1 then candidates.head? else none

/-- The resolution layers of `find_track_file` restated as an ordered
first-match-wins composition over the source's own prefix test (the
amended form of C2). -/
def layeredFind (candidates : List String) (track_num : Nat) :
    Option String :=
  (candidates.find? (fun c => trackPrefixNum c = some track_num)).orElse
    (fun _ =>
      (candidates.find?
          (fun c => strContains c (pyZfill 2 (Nat.repr track_num)))).orElse
        (fun _ => if candidates.length = 1 then candidates.head? else none))

/-- Following C8's words: remove a prefix "optional leading zeros, digits
equal to `n`, then one or more of `-`, `_`, `.`, or whitespace" (no
leading whitespace), then a remaining "digits-equal-to-`n` then
whitespace" prefix, then strip disallowed characters and surrounding
whitespace; substitute the title when the result is empty. -/
def claimStripLeadingTrackNumber (name : String) (tn : Nat)
    (ttitle : String) : String :=
  let ds := (Nat.repr tn).data
  let sub1 :=
    let cs := name.data
    let cs2 := cs.dropWhile (· = '0')
    if ds.isPrefixOf cs2 then
      let cs3 := cs2.drop ds.length
      if cs3.takeWhile isDelim = [] then name
      else (cs3.dropWhile isDelim).asString
    else name
  let sub2 :=
    let cs := sub1.data
    if ds.isPrefixOf cs then
      let cs3 := cs.drop ds.length
      if cs3.takeWhile isPyWs = [] then sub1
      else (cs3.dropWhile isPyWs).asString
    else sub1
  let cleaned := sanitize_filename sub2
  if cleaned = "" then ttitle else cleaned

/-- Following C5's words: the text after the first occurrence of
`"Title: "` in a line. -/
def titleTextAfterFirst (line : String) : String :=
  String.intercalate "Title: " ((pySplit line "Title: ").drop 1)

/-- A tracklist line that `parse_input_file` processes as a track entry and
whose timestamp token raises. -/
def failLine (l : String) : Prop :=
  l ≠ "" ∧ is_timestamp (firstTok l) = true ∧
    ∃ e, get_min_sec_from_timestamp (firstTok l) = .error e

/-- The predicate selecting the lines that `parse_input_file` turns into
track blocks. -/
def isTrackCand (l : String) : Bool :=
  !(pyStartsWith l "Title:") && !(pyStartsWith l "# Title:") &&
    !(l = "") && is_timestamp (firstTok l)

/-- A character that the `shlex` scanner copies verbatim in word state. -/
def plainChar (c : Char) : Bool :=
  !(isShWs c) && !(c = squote) && !(c = dq) && !(c = bslash)

/-- Free-text fields that survive the round trip through the on-disk sheet:
no double quote (which would break the quoting), no backslash (which the
quote-aware splitter treats as an escape), no newline (which would split
the physical line). -/
def goodStr (s : String) : Bool :=
  s.data.all (fun c => !(c = dq) && !(c = bslash) && !(c = '\n'))

/-- The track records that `parse_cue` reconstructs from serialized blocks
numbered from `k`. -/
def mkRecords : Nat → List GenTrack → List CueTrack
  | _, [] => []
  | k, g :: gs =>
    { number := (k : Int), titleT := some g.title,
      performerT := some g.performer,
      indexT := some ["01", indexToken (g.minutes : Int) (g.seconds : Int)] } ::
      mkRecords (k + 1) gs

/-- Whether an `Except` is a success. -/
def exceptIsOk {α β : Type} : Except α β → Bool
  | .ok _ => true
  | .error _ => false

/-- The lines on which one `parse_cue` iteration cannot raise: blank lines,
lines whose tokenization succeeds and which, when dispatching on `TRACK`,
carry an integer second token, and, on `FILE`, carry a quoted name or a
second token. -/
def goodLine (raw : String) : Bool :=
  (pyStrip raw = "") ||
  (match cueTokens (pyStrip raw) with
   | .error _ => false
   | .ok [] => false
   | .ok (p0 :: ps) =>
     if pyUpper p0 = "TRACK" then
       match ps with
       | p1 :: _ => exceptIsOk (pyInt p1)
       | [] => false
     else if pyUpper p0 = "FILE" then
       (firstQuoted (pyStrip raw).data).isSome || !(ps.isEmpty)
     else true)

/-- The amended-claim reading of one `re.sub` prefix removal: optional
leading whitespace, optional leading zeros, the decimal digits of the
track number, then a non-empty run of the trailing class. -/
def claimStripAmendedSub (cls : Char → Bool) (tn : Nat) (name : String) :
    String :=
  let ds := (Nat.repr tn).data
  let cs2 := (name.data.dropWhile isPyWs).dropWhile (· = '0')
  if ds.isPrefixOf cs2 then
    let cs3 := cs2.drop ds.length
    if cs3.takeWhile cls = [] then name
    else (cs3.dropWhile cls).asString
  else name

/-- The amended-claim base name: both prefix removals in order (delimiter
run, then whitespace run). -/
def claimStripBaseAmended (tn : Nat) (name : String) : String :=
  claimStripAmendedSub isPyWs tn (claimStripAmendedSub isDelim tn name)

/-! ## Helper lemmas: characters, digits, `Nat.repr` -/

lemma char_ne_of_isDigit {c : Char} (h : c.isDigit = true) {d : Char}
    (hd : d.isDigit = false) : c ≠ d := by
  intro e
  rw [e, hd] at h
  exact Bool.false_ne_true h

lemma isPyWs_eq_false_of_isDigit {c : Char} (h : c.isDigit = true) :
    isPyWs c = false := by
  have h1 := char_ne_of_isDigit h (d := ' ') (by decide)
  have h2 := char_ne_of_isDigit h (d := '\t') (by decide)
  have h3 := char_ne_of_isDigit h (d := '\n') (by decide)
  have h4 := char_ne_of_isDigit h (d := '\r') (by decide)
  have h5 := char_ne_of_isDigit h (d := '\x0b') (by decide)
  have h6 := char_ne_of_isDigit h (d := '\x0c') (by decide)
  simp [isPyWs, h1, h2, h3, h4, h5, h6]

lemma dropWhile_eq_self_of_all {α : Type} {p : α → Bool} :
    ∀ {cs : List α}, (∀ c ∈ cs, p c = false) → cs.dropWhile p = cs
  | [], _ => rfl
  | c :: rest, h => by
    simp [List.dropWhile_cons, h c (List.mem_cons_self c rest)]

lemma pyStripChars_eq_self {cs : List Char}
    (h : ∀ c ∈ cs, isPyWs c = false) : pyStripChars cs = cs := by
  unfold pyStripChars
  rw [dropWhile_eq_self_of_all h]
  rw [dropWhile_eq_self_of_all (by intro c hc; exact h c (List.mem_reverse.mp hc))]
  exact List.reverse_reverse cs

lemma natOfDigits_append_one (xs : List Char) (c : Char) :
    natOfDigits (xs ++ [c]) = 10 * natOfDigits xs + digitVal c := by
  simp [natOfDigits, List.foldl_append]

lemma natOfDigits_zeros (k : Nat) (ds : List Char) :
    natOfDigits (List.replicate k '0' ++ ds) = natOfDigits ds := by
  induction k with
  | zero => rfl
  | succ n ih =>
    have : natOfDigits (List.replicate (n + 1) '0' ++ ds)
        = natOfDigits (List.replicate n '0' ++ ds) := by
      simp only [List.replicate_succ, List.cons_append, natOfDigits,
        List.foldl_cons, digitVal]
      rw [show 10 * 0 + ('0'.toNat - 48) = 0 by decide]
    rw [this, ih]

lemma digitChar_spec {m : Nat} (h : m < 10) :
    (Nat.digitChar m).isDigit = true ∧ digitVal (Nat.digitChar m) = m := by
  interval_cases m <;> exact ⟨by decide, by decide⟩

lemma toDigitsCore_acc (fuel : Nat) : ∀ (n : Nat) (acc : List Char),
    Nat.toDigitsCore 10 fuel n acc = Nat.toDigitsCore 10 fuel n [] ++ acc := by
  induction fuel with
  | zero => intro n acc; simp [Nat.toDigitsCore]
  | succ f ih =>
    intro n acc
    rw [Nat.toDigitsCore, Nat.toDigitsCore]
    by_cases h0 : n / 10 = 0
    · simp [h0]
    · simp only [h0, if_false]
      rw [ih (n / 10) (Nat.digitChar (n % 10) :: acc),
        ih (n / 10) [Nat.digitChar (n % 10)], List.append_assoc]
      rfl

lemma toDigitsCore_spec : ∀ (fuel n : Nat), n < fuel →
    (Nat.toDigitsCore 10 fuel n []).all Char.isDigit = true ∧
    natOfDigits (Nat.toDigitsCore 10 fuel n []) = n ∧
    Nat.toDigitsCore 10 fuel n [] ≠ [] := by
  intro fuel
  induction fuel with
  | zero => intro n h; omega
  | succ f ih =>
    intro n h
    rw [Nat.toDigitsCore]
    have hm : n % 10 < 10 := Nat.mod_lt _ (by norm_num)
    have hd := digitChar_spec hm
    by_cases h0 : n / 10 = 0
    · have hn : n < 10 := (Nat.div_eq_zero_iff (by norm_num)).mp h0
      have hmod : n % 10 = n := Nat.mod_eq_of_lt hn
      simp only [h0, if_true, hmod] at *
      refine ⟨by simp [hd.1], ?_, by simp⟩
      show natOfDigits [Nat.digitChar n] = n
      have : natOfDigits [Nat.digitChar n] = digitVal (Nat.digitChar n) := by
        simp [natOfDigits, digitVal]
      rw [this, hd.2]
    · have hpos : 0 < n := by
        rcases Nat.eq_zero_or_pos n with h | h
        · exfalso; rw [h] at h0; exact h0 rfl
        · exact h
      have hlt : n / 10 < n := Nat.div_lt_self hpos (by norm_num)
      have hf : n / 10 < f := by omega
      obtain ⟨ha, hv, hne⟩ := ih (n / 10) hf
      simp only [h0, if_false]
      rw [toDigitsCore_acc]
      refine ⟨?_, ?_, by simp [hne]⟩
      · simp only [List.all_append, ha, Bool.true_and]
        simp [hd.1]
      · rw [natOfDigits_append_one, hv, hd.2]
        omega

lemma repr_spec (n : Nat) :
    (Nat.repr n).data.all Char.isDigit = true ∧
    natOfDigits (Nat.repr n).data = n ∧ (Nat.repr n).data ≠ [] := by
  have h : (Nat.repr n).data = Nat.toDigitsCore 10 (n + 1) n [] := rfl
  rw [h]
  exact toDigitsCore_spec (n + 1) n (Nat.lt_succ_self n)

lemma asString_data (l : List Char) : (l.asString).data = l := rfl

lemma pyZfill_digits (w : Nat) (s : String) (h : s.data.all Char.isDigit = true)
    (hne : s.data ≠ []) :
    (pyZfill w s).data.all Char.isDigit = true ∧
    natOfDigits (pyZfill w s).data = natOfDigits s.data ∧
    (pyZfill w s).data ≠ [] := by
  unfold pyZfill
  by_cases hl : s.length ≥ w
  · simp [hl, h, hne]
  · simp only [hl, if_false]
    obtain ⟨c, rest, hcr⟩ : ∃ c rest, s.data = c :: rest := by
      cases hsd : s.data with
      | nil => exact absurd hsd hne
      | cons c rest => exact ⟨c, rest, rfl⟩
    have hcd : c.isDigit = true := by
      have h' := h
      rw [hcr] at h'
      simp [List.all_cons] at h'
      exact h'.1
    have hplus : c ≠ '+' := char_ne_of_isDigit hcd (by decide)
    have hminus : c ≠ '-' := char_ne_of_isDigit hcd (by decide)
    rw [hcr]
    simp only [hplus, hminus, decide_False, Bool.or_self, Bool.false_eq_true,
      if_false, decide_eq_true_eq, asString_data, List.nil_append]
    refine ⟨?_, ?_, ?_⟩
    · rw [List.all_eq_true]
      intro a ha
      rcases List.mem_append.mp ha with h1 | h1
      · rw [List.eq_of_mem_replicate h1]; decide
      · rw [← hcr] at h1
        exact List.all_eq_true.mp h a h1
    · rw [← hcr, natOfDigits_zeros]
    · simp

lemma digitsU_of_all : ∀ {cs : List Char}, cs.all Char.isDigit = true →
    digitsU false cs = true ∧ (cs ≠ [] → digitsU true cs = true)
  | [], _ => ⟨rfl, fun h => absurd rfl h⟩
  | c :: rest, h => by
    have hc : c.isDigit = true := by
      simp [List.all_cons] at h; exact h.1
    have hrest : rest.all Char.isDigit = true := by
      simp [List.all_cons] at h
      exact List.all_eq_true.mpr h.2
    have ih := digitsU_of_all hrest
    constructor
    · simp [digitsU, hc, ih.1]
    · intro _
      simp [digitsU, hc, ih.1]

lemma filter_no_underscore {cs : List Char} (h : cs.all Char.isDigit = true) :
    cs.filter (· ≠ '_') = cs := by
  rw [List.filter_eq_self]
  intro a ha
  have hd := List.all_eq_true.mp h a ha
  have : a ≠ '_' := char_ne_of_isDigit hd (by decide)
  simp [this]

lemma pyInt_of_digits (s : String) (h : s.data.all Char.isDigit = true)
    (hne : s.data ≠ []) : pyInt s = .ok (natOfDigits s.data : Int) := by
  unfold pyInt
  have hnw : ∀ c ∈ s.data, isPyWs c = false := by
    intro c hc
    exact isPyWs_eq_false_of_isDigit (List.all_eq_true.mp h c hc)
  rw [pyStripChars_eq_self hnw]
  obtain ⟨c, rest, hcr⟩ : ∃ c rest, s.data = c :: rest := by
    cases hsd : s.data with
    | nil => exact absurd hsd hne
    | cons c rest => exact ⟨c, rest, rfl⟩
  have hcd : c.isDigit = true := by
    rw [hcr] at h; simp [List.all_cons] at h; exact h.1
  have hplus : c ≠ '+' := char_ne_of_isDigit hcd (by decide)
  have hminus : c ≠ '-' := char_ne_of_isDigit hcd (by decide)
  rw [hcr]
  simp only [hplus, hminus, if_false]
  rw [← hcr]
  have hvalid : intBodyValid s.data = true := by
    unfold intBodyValid
    have := (digitsU_of_all h).2 hne
    simp [hne, this]
  simp only [hvalid, if_true]
  rw [filter_no_underscore h]
  norm_num

lemma pyInt_zfill_repr (w k : Nat) :
    pyInt (pyZfill w (Nat.repr k)) = .ok (k : Int) := by
  obtain ⟨ha, hv, hne⟩ := repr_spec k
  obtain ⟨ha2, hv2, hne2⟩ := pyZfill_digits w (Nat.repr k) ha hne
  rw [pyInt_of_digits _ ha2 hne2, hv2, hv]

/-! ## Helper lemmas: `pySplit` -/

lemma pySplitFuel_congr (sep : List Char) :
    ∀ (f g : Nat) (cs : List Char), cs.length ≤ f → cs.length ≤ g →
      pySplitFuel sep f cs = pySplitFuel sep g cs := by
  intro f
  induction f with
  | zero =>
    intro g cs hf _
    have : cs = [] := List.eq_nil_of_length_eq_zero (Nat.le_zero.mp hf)
    subst this
    cases g <;> simp [pySplitFuel]
  | succ f ih =>
    intro g cs hf hg
    cases cs with
    | nil => cases g <;> simp [pySplitFuel]
    | cons c rest =>
      have hg1 : 1 ≤ g := le_trans (by simp) hg
      obtain ⟨g', rfl⟩ : ∃ g', g = g' + 1 := ⟨g - 1, by omega⟩
      rw [pySplitFuel, pySplitFuel]
      by_cases h : sep ≠ [] ∧ sep.isPrefixOf (c :: rest)
      · rw [if_pos h, if_pos h]
        have hsl : 1 ≤ sep.length := by
          have hne := h.1
          cases hs : sep with
          | nil => exact absurd hs hne
          | cons a as => simp
        have hlen : (List.drop sep.length (c :: rest)).length ≤ f ∧
            (List.drop sep.length (c :: rest)).length ≤ g' := by
          simp only [List.length_drop, List.length_cons] at *
          omega
        rw [ih g' _ hlen.1 hlen.2]
      · rw [if_neg h, if_neg h]
        have hlen : rest.length ≤ f ∧ rest.length ≤ g' := by
          simp only [List.length_cons] at hf hg
          omega
        rw [ih g' rest hlen.1 hlen.2]

lemma pySplitChars_nil (sep : List Char) : pySplitChars sep [] = [[]] := rfl

lemma pySplitChars_cons (sep : List Char) (c : Char) (rest : List Char) :
    pySplitChars sep (c :: rest) =
      if sep ≠ [] ∧ sep.isPrefixOf (c :: rest) then
        [] :: pySplitChars sep ((c :: rest).drop sep.length)
      else consHead c (pySplitChars sep rest) := by
  show pySplitFuel sep (rest.length + 1) (c :: rest) = _
  rw [pySplitFuel]
  by_cases h : sep ≠ [] ∧ sep.isPrefixOf (c :: rest)
  · rw [if_pos h, if_pos h]
    have hsl : 1 ≤ sep.length := by
      have hne := h.1
      cases hs : sep with
      | nil => exact absurd hs hne
      | cons a as => simp
    rw [pySplitFuel_congr sep rest.length (List.drop sep.length (c :: rest)).length
      (List.drop sep.length (c :: rest))
      (by simp only [List.length_drop, List.length_cons]; omega) (le_refl _)]
    rfl
  · rw [if_neg h, if_neg h]
    rfl

lemma pySplitChars_single_no (c : Char) :
    ∀ {cs : List Char}, (∀ a ∈ cs, a ≠ c) → pySplitChars [c] cs = [cs]
  | [], _ => rfl
  | d :: rest, h => by
    rw [pySplitChars_cons]
    have hdc : ¬ ([c] ≠ [] ∧ List.isPrefixOf [c] (d :: rest)) := by
      intro hcon
      have h2 := hcon.2
      simp [List.isPrefixOf] at h2
      exact h d (List.mem_cons_self d rest) h2.symm
    rw [if_neg hdc]
    rw [pySplitChars_single_no c (fun a ha => h a (List.mem_cons_of_mem d ha))]
    rfl

lemma pySplitChars_single_app (c : Char) (ys : List Char) :
    ∀ (xs : List Char), (∀ a ∈ xs, a ≠ c) →
      pySplitChars [c] (xs ++ c :: ys) = xs :: pySplitChars [c] ys
  | [], _ => by
    rw [List.nil_append, pySplitChars_cons]
    have hc : ([c] ≠ [] ∧ List.isPrefixOf [c] (c :: ys)) := by
      refine ⟨by simp, ?_⟩
      simp [List.isPrefixOf]
    rw [if_pos hc]
    simp
  | x :: xs, h => by
    rw [List.cons_append, pySplitChars_cons]
    have hdc : ¬ ([c] ≠ [] ∧ List.isPrefixOf [c] (x :: (xs ++ c :: ys))) := by
      intro hcon
      have h2 := hcon.2
      simp [List.isPrefixOf] at h2
      exact h x (List.mem_cons_self x xs) h2.symm
    rw [if_neg hdc]
    rw [pySplitChars_single_app c ys xs (fun a ha => h a (List.mem_cons_of_mem x ha))]
    rfl

lemma data_asString (s : String) : s.data.asString = s := rfl

lemma pySplit_pair (a b : String) (ha : ∀ x ∈ a.data, x ≠ ':')
    (hb : ∀ x ∈ b.data, x ≠ ':') :
    pySplit (a ++ ":" ++ b) ":" = [a, b] := by
  unfold pySplit
  have hdata : (a ++ ":" ++ b).data = a.data ++ ':' :: b.data := by
    rw [String.data_append, String.data_append]
    show a.data ++ [':'] ++ b.data = _
    simp
  rw [hdata]
  show (pySplitChars [':'] (a.data ++ ':' :: b.data)).map List.asString = _
  rw [pySplitChars_single_app ':' b.data a.data ha,
    pySplitChars_single_no ':' hb]
  simp [data_asString]

/-- Resolving the serialized `MM:SS` token parses back to the pair it was
rendered from. -/
lemma get_min_sec_indexToken (m s : Nat) :
    get_min_sec_from_timestamp (indexToken (m : Int) (s : Int)) =
      .ok ((m : Int), (s : Int)) := by
  have hm := repr_spec m
  have hs := repr_spec s
  have hm2 := pyZfill_digits 2 (Nat.repr m) hm.1 hm.2.2
  have hs2 := pyZfill_digits 2 (Nat.repr s) hs.1 hs.2.2
  have hshow : indexToken (m : Int) (s : Int) =
      pyZfill 2 (Nat.repr m) ++ ":" ++ pyZfill 2 (Nat.repr s) := rfl
  rw [hshow]
  unfold get_min_sec_from_timestamp
  rw [pySplit_pair _ _
    (fun x hx => char_ne_of_isDigit (List.all_eq_true.mp hm2.1 x hx) (by decide))
    (fun x hx => char_ne_of_isDigit (List.all_eq_true.mp hs2.1 x hx) (by decide))]
  rw [if_pos (show ([pyZfill 2 (Nat.repr m), pyZfill 2 (Nat.repr s)] :
    List String).length = 2 from rfl)]
  have e1 : List.getD [pyZfill 2 (Nat.repr m), pyZfill 2 (Nat.repr s)] 0 ""
      = pyZfill 2 (Nat.repr m) := rfl
  have e2 : List.getD [pyZfill 2 (Nat.repr m), pyZfill 2 (Nat.repr s)] 1 ""
      = pyZfill 2 (Nat.repr s) := rfl
  rw [e1, e2, pyInt_zfill_repr, pyInt_zfill_repr]
  rfl

/-! ## Helper lemmas: the tracklist parser -/

lemma pySplitChars_ne_nil (sep : List Char) :
    ∀ (cs : List Char), pySplitChars sep cs ≠ []
  | [] => by rw [pySplitChars_nil]; simp
  | c :: rest => by
    rw [pySplitChars_cons]
    by_cases h : sep ≠ [] ∧ sep.isPrefixOf (c :: rest)
    · rw [if_pos h]; simp
    · rw [if_neg h]
      cases hs : pySplitChars sep rest with
      | nil => exact absurd hs (pySplitChars_ne_nil sep rest)
      | cons f fs => simp [consHead]

lemma pySplitChars_single_headD (c : Char) :
    ∀ (cs : List Char),
      (pySplitChars [c] cs).headD [] = cs.takeWhile (· ≠ c)
  | [] => by rw [pySplitChars_nil]; rfl
  | d :: rest => by
    rw [pySplitChars_cons]
    by_cases hd : d = c
    · subst hd
      have hc : ([d] ≠ [] ∧ List.isPrefixOf [d] (d :: rest)) := by
        refine ⟨by simp, by simp [List.isPrefixOf]⟩
      rw [if_pos hc]
      rw [List.takeWhile_cons]
      simp
    · have hdc : ¬ ([c] ≠ [] ∧ List.isPrefixOf [c] (d :: rest)) := by
        intro hcon
        have h2 := hcon.2
        simp [List.isPrefixOf] at h2
        exact hd h2.symm
      rw [if_neg hdc]
      rw [List.takeWhile_cons, if_pos (show (decide (d ≠ c)) = true by simp [hd])]
      cases hs : pySplitChars [c] rest with
      | nil => exact absurd hs (pySplitChars_ne_nil [c] rest)
      | cons f fs =>
        have ih := pySplitChars_single_headD c rest
        rw [hs] at ih
        simp only [List.headD_cons] at ih
        simp only [consHead, List.headD_cons]
        rw [ih]

lemma firstTok_data (l : String) :
    (firstTok l).data = l.data.takeWhile (· ≠ ' ') := by
  unfold firstTok pySplit
  have hsep : (" " : String).data = [' '] := rfl
  rw [hsep]
  cases hs : pySplitChars [' '] l.data with
  | nil => exact absurd hs (pySplitChars_ne_nil [' '] l.data)
  | cons f fs =>
    have h := pySplitChars_single_headD ' ' l.data
    rw [hs] at h
    simp only [List.headD_cons] at h
    simp [h, asString_data]

lemma startsWith_title_not_timestamp {l : String} {p : String} (c : Char)
    (hc : c.isDigit = false ∧ c ≠ ':' ∧ c ≠ ' ')
    (hp : ∃ q, p.data = c :: q)
    (h : pyStartsWith l p = true) : is_timestamp (firstTok l) = false := by
  unfold pyStartsWith at h
  have hpre := List.isPrefixOf_iff_prefix.mp h
  obtain ⟨t, ht⟩ := hpre
  obtain ⟨q, hq⟩ := hp
  have hld : l.data = c :: (q ++ t) := by
    rw [← ht, hq]; simp
  unfold is_timestamp
  rw [firstTok_data, hld, List.takeWhile_cons]
  have : (decide (c ≠ ' ')) = true := by simp [hc.2.2]
  rw [this, if_pos rfl]
  simp only [List.all_cons, hc.1, Bool.false_or]
  have : (c = ':') = False := by simp [hc.2.1]
  simp [this]

lemma is_timestamp_not_title {l : String}
    (h : is_timestamp (firstTok l) = true) :
    (pyStartsWith l "Title:" || pyStartsWith l "# Title:") = false := by
  have h1 : pyStartsWith l "Title:" = false := by
    cases hpb : pyStartsWith l "Title:" with
    | false => rfl
    | true =>
      have hft := startsWith_title_not_timestamp (p := "Title:") 'T'
        ⟨by decide, by decide, by decide⟩ ⟨"itle:".data, rfl⟩ hpb
      rw [hft] at h
      exact absurd h (by decide)
  have h2 : pyStartsWith l "# Title:" = false := by
    cases hpb : pyStartsWith l "# Title:" with
    | false => rfl
    | true =>
      have hft := startsWith_title_not_timestamp (p := "# Title:") '#'
        ⟨by decide, by decide, by decide⟩ ⟨" Title:".data, rfl⟩ hpb
      rw [hft] at h
      exact absurd h (by decide)
  simp [h1, h2]


lemma parse_go_error_of_mem (oaf : Bool) :
    ∀ (contents : List String) (counter : Nat) (acc : List String),
      (∃ l ∈ contents, failLine l) →
      ∃ e, parse_go oaf counter acc contents = .error e := by
  intro contents
  induction contents with
  | nil =>
    intro counter acc h
    obtain ⟨l, hl, _⟩ := h
    exact absurd hl (List.not_mem_nil l)
  | cons hd t ih =>
    intro counter acc h
    obtain ⟨l, hl, hfail⟩ := h
    rw [parse_go]
    rcases List.mem_cons.mp hl with rfl | hlt
    · -- the failing line is at the head
      have hnt := is_timestamp_not_title hfail.2.1
      rw [hnt]
      simp only [Bool.false_eq_true, if_false]
      rw [if_neg hfail.1]
      rw [if_pos hfail.2.1]
      obtain ⟨e, he⟩ := hfail.2.2
      rw [he]
      exact ⟨e, rfl⟩
    · -- the failing line is in the tail: every head branch recurses or errors
      by_cases hT : (pyStartsWith hd "Title:" || pyStartsWith hd "# Title:") = true
      · rw [if_pos hT]
        exact ih counter (acc ++ [titleLineOut hd]) ⟨l, hlt, hfail⟩
      · rw [if_neg hT]
        by_cases hE : hd = ""
        · rw [if_pos hE]
          exact ih counter acc ⟨l, hlt, hfail⟩
        · rw [if_neg hE]
          by_cases hts : is_timestamp (firstTok hd) = true
          · rw [if_pos hts]
            cases hms : get_min_sec_from_timestamp (firstTok hd) with
            | error e => exact ⟨e, rfl⟩
            | ok p =>
              cases p with
              | mk m s => exact ih (counter + 1) _ ⟨l, hlt, hfail⟩
          · rw [if_neg hts]
            exact ih counter acc ⟨l, hlt, hfail⟩

/-! ## Helper lemmas: the emitted-line shapes -/

lemma pyStartsWith_append (p r : String) : pyStartsWith (p ++ r) p = true := by
  unfold pyStartsWith
  rw [String.data_append]
  exact List.isPrefixOf_iff_prefix.mpr (List.prefix_append p.data r.data)

lemma trackHeaderLine_starts (k : Nat) :
    pyStartsWith (trackHeaderLine k) "  TRACK " = true := by
  unfold trackHeaderLine
  rw [String.append_assoc]
  exact pyStartsWith_append "  TRACK " _

lemma not_track_of_four_spaces {x : String}
    (h : ∃ y, x.data = ' ' :: ' ' :: ' ' :: ' ' :: y) :
    pyStartsWith x "  TRACK " = false := by
  obtain ⟨y, hy⟩ := h
  unfold pyStartsWith
  rw [hy]
  have hTd : ("  TRACK " : String).data = [' ', ' ', 'T', 'R', 'A', 'C', 'K', ' '] := rfl
  rw [hTd]
  simp [List.isPrefixOf]

lemma albumTitleLine_not_track (t : String) :
    pyStartsWith (albumTitleLine t) "  TRACK " = false := by
  unfold pyStartsWith albumTitleLine
  rw [String.data_append, String.data_append]
  have h1 : ("TITLE \"" : String).data = ['T', 'I', 'T', 'L', 'E', ' ', '"'] := rfl
  have h2 : ("  TRACK " : String).data = [' ', ' ', 'T', 'R', 'A', 'C', 'K', ' '] := rfl
  rw [h1, h2]
  simp [List.isPrefixOf]

lemma trackTitleLine_not_track (t : String) :
    pyStartsWith (trackTitleLine t) "  TRACK " = false := by
  apply not_track_of_four_spaces
  refine ⟨['T', 'I', 'T', 'L', 'E', ' ', '"'] ++ (t.data ++ ['"']), ?_⟩
  show (("    TITLE \"" ++ t) ++ "\"").data = _
  rw [String.data_append, String.data_append]
  rfl

lemma trackPerformerLine_not_track (t : String) :
    pyStartsWith (trackPerformerLine t) "  TRACK " = false := by
  apply not_track_of_four_spaces
  refine ⟨['P', 'E', 'R', 'F', 'O', 'R', 'M', 'E', 'R', ' ', '"'] ++ (t.data ++ ['"']), ?_⟩
  show (("    PERFORMER \"" ++ t) ++ "\"").data = _
  rw [String.data_append, String.data_append]
  rfl

lemma indexLine_not_track (m s : Int) :
    pyStartsWith (indexLine m s) "  TRACK " = false := by
  apply not_track_of_four_spaces
  refine ⟨['I', 'N', 'D', 'E', 'X', ' ', '0', '1', ' '] ++ (indexToken m s).data, ?_⟩
  show ("    INDEX 01 " ++ indexToken m s).data = _
  rw [String.data_append]
  rfl

lemma titleLineOut_not_track (l : String) :
    pyStartsWith (titleLineOut l) "  TRACK " = false :=
  albumTitleLine_not_track _

/-! ## Helper lemmas: contiguous track numbering -/


lemma headers_range {α : Type} (f : Nat → α) (k n : Nat) :
    (List.range (n + 1)).map (fun i => f (k + i)) =
      f k :: (List.range n).map (fun i => f (k + 1 + i)) := by
  rw [List.range_succ_eq_map]
  simp only [List.map_cons, List.map_map, Nat.add_zero]
  congr 1
  apply List.map_congr_left
  intro i _
  show f (k + (i + 1)) = f (k + 1 + i)
  congr 1
  omega

/-- The filter `pyStartsWith · "  TRACK "` of the output lines is the range
of headers numbered from the running counter. -/
lemma parse_go_headers (oaf : Bool) :
    ∀ (contents : List String) (counter : Nat) (acc ls : List String),
      parse_go oaf counter acc contents = .ok ls →
      ls.filter (fun s => pyStartsWith s "  TRACK ") =
        acc.filter (fun s => pyStartsWith s "  TRACK ") ++
          (List.range (contents.filter isTrackCand).length).map
            (fun i => trackHeaderLine (counter + i)) := by
  intro contents
  induction contents with
  | nil =>
    intro counter acc ls h
    rw [parse_go] at h
    cases h
    simp
  | cons hd t ih =>
    intro counter acc ls h
    rw [parse_go] at h
    rw [List.filter_cons]
    by_cases hT : (pyStartsWith hd "Title:" || pyStartsWith hd "# Title:") = true
    · rw [if_pos hT] at h
      have hcand : isTrackCand hd = false := by
        unfold isTrackCand
        rcases Bool.or_eq_true_iff.mp hT with h1 | h1 <;> simp [h1]
      rw [hcand]
      simp only [Bool.false_eq_true, if_false]
      rw [ih counter (acc ++ [titleLineOut hd]) ls h]
      rw [List.filter_append]
      have : List.filter (fun s => pyStartsWith s "  TRACK ") [titleLineOut hd] = [] := by
        simp [List.filter_cons, titleLineOut_not_track]
      rw [this, List.append_nil]
    · rw [if_neg hT] at h
      have hT1 : pyStartsWith hd "Title:" = false := by
        cases hb : pyStartsWith hd "Title:" with
        | false => rfl
        | true => exact absurd (by simp [hb]) hT
      have hT2 : pyStartsWith hd "# Title:" = false := by
        cases hb : pyStartsWith hd "# Title:" with
        | false => rfl
        | true => exact absurd (by simp [hb]) hT
      by_cases hE : hd = ""
      · rw [if_pos hE] at h
        have hcand : isTrackCand hd = false := by
          unfold isTrackCand
          simp [hE]
        rw [hcand]
        simp only [Bool.false_eq_true, if_false]
        exact ih counter acc ls h
      · rw [if_neg hE] at h
        by_cases hts : is_timestamp (firstTok hd) = true
        · rw [if_pos hts] at h
          cases hms : get_min_sec_from_timestamp (firstTok hd) with
          | error e => rw [hms] at h; cases h
          | ok p =>
            cases p with
            | mk m s =>
              rw [hms] at h
              have hcand : isTrackCand hd = true := by
                unfold isTrackCand
                simp [hT1, hT2, hE, hts]
              rw [hcand]
              simp only [if_true]
              rw [ih (counter + 1) _ ls h]
              rw [List.filter_append]
              have hblock : List.filter (fun s => pyStartsWith s "  TRACK ")
                  [trackHeaderLine counter,
                   trackTitleLine (if oaf then get_string2 hd else get_string1 hd),
                   trackPerformerLine (if oaf then get_string1 hd else get_string2 hd),
                   indexLine m s] = [trackHeaderLine counter] := by
                simp [List.filter_cons, trackHeaderLine_starts,
                  trackTitleLine_not_track, trackPerformerLine_not_track,
                  indexLine_not_track]
              rw [hblock]
              rw [List.length_cons, headers_range]
              simp
        · rw [if_neg hts] at h
          have hcand : isTrackCand hd = false := by
            unfold isTrackCand
            cases hb : is_timestamp (firstTok hd) with
            | false => simp
            | true => exact absurd hb hts
          rw [hcand]
          simp only [Bool.false_eq_true, if_false]
          exact ih counter acc ls h

/-! ## Helper lemmas: generic string shapes -/

lemma takeWhile_append_stop {α : Type} {p : α → Bool} :
    ∀ (xs : List α) (b : α) (ys : List α), (∀ a ∈ xs, p a = true) →
      p b = false → List.takeWhile p (xs ++ b :: ys) = xs
  | [], b, ys, _, hb => by
    rw [List.nil_append, List.takeWhile_cons, hb]
    simp
  | x :: xs, b, ys, h, hb => by
    rw [List.cons_append, List.takeWhile_cons, h x (List.mem_cons_self x xs)]
    simp only [if_true]
    rw [takeWhile_append_stop xs b ys (fun a ha => h a (List.mem_cons_of_mem x ha)) hb]

lemma dropWhile_append_stop {α : Type} {p : α → Bool} :
    ∀ (xs : List α) (b : α) (ys : List α), (∀ a ∈ xs, p a = true) →
      p b = false → List.dropWhile p (xs ++ b :: ys) = b :: ys
  | [], b, ys, _, hb => by
    rw [List.nil_append, List.dropWhile_cons, hb]
    simp
  | x :: xs, b, ys, h, hb => by
    rw [List.cons_append, List.dropWhile_cons, h x (List.mem_cons_self x xs)]
    simp only [if_true]
    exact dropWhile_append_stop xs b ys (fun a ha => h a (List.mem_cons_of_mem x ha)) hb

lemma dropWhile_cons_pos {α : Type} {p : α → Bool} {a : α} {t : List α}
    (h : p a = true) : List.dropWhile p (a :: t) = List.dropWhile p t := by
  rw [List.dropWhile_cons, h]
  simp

lemma dropWhile_cons_neg {α : Type} {p : α → Bool} {a : α} {t : List α}
    (h : p a = false) : List.dropWhile p (a :: t) = a :: t := by
  rw [List.dropWhile_cons, h]
  simp

lemma takeWhile_cons_pos {α : Type} {p : α → Bool} {a : α} {t : List α}
    (h : p a = true) : List.takeWhile p (a :: t) = a :: List.takeWhile p t := by
  rw [List.takeWhile_cons, h]
  simp

lemma takeWhile_cons_neg {α : Type} {p : α → Bool} {a : α} {t : List α}
    (h : p a = false) : List.takeWhile p (a :: t) = [] := by
  rw [List.takeWhile_cons, h]
  simp

lemma dropWhile_append_all {α : Type} {p : α → Bool} :
    ∀ (pre rest : List α), (∀ a ∈ pre, p a = true) →
      List.dropWhile p (pre ++ rest) = List.dropWhile p rest
  | [], rest, _ => rfl
  | a :: pre, rest, h => by
    rw [List.cons_append, dropWhile_cons_pos (h a (List.mem_cons_self a pre))]
    exact dropWhile_append_all pre rest (fun b hb => h b (List.mem_cons_of_mem a hb))

lemma getLastD_of_ne_nil {α : Type} {cs : List α} (d : α) (hne : cs ≠ []) :
    cs.getLastD d = cs.getLast hne := by
  rw [List.getLastD_eq_getLast?, List.getLast?_eq_getLast cs hne]
  rfl

lemma pyStripChars_of_ends {cs : List Char} (hne : cs ≠ [])
    (hh : isPyWs (cs.headD ' ') = false)
    (hl : isPyWs (cs.getLastD ' ') = false) : pyStripChars cs = cs := by
  unfold pyStripChars
  cases cs with
  | nil => rfl
  | cons a t =>
    simp only [List.headD_cons] at hh
    rw [List.dropWhile_cons, hh]
    simp only [Bool.false_eq_true, if_false]
    have hsplit := List.dropLast_append_getLast (l := a :: t) (by simp)
    have hrev : (a :: t).reverse =
        (a :: t).getLast (by simp) :: (a :: t).dropLast.reverse := by
      conv_lhs => rw [← hsplit]
      rw [List.reverse_append]
      rfl
    rw [hrev, List.dropWhile_cons]
    have hlast : isPyWs ((a :: t).getLast (by simp)) = false := by
      rw [← getLastD_of_ne_nil ' ' (by simp)]
      exact hl
    rw [hlast]
    simp only [Bool.false_eq_true, if_false]
    rw [← hrev, List.reverse_reverse]

lemma pyStrip_concat (sp body : String)
    (hsp : ∀ a ∈ sp.data, isPyWs a = true) (hne : body.data ≠ [])
    (hh : isPyWs (body.data.headD ' ') = false)
    (hl : isPyWs (body.data.getLastD ' ') = false) :
    pyStrip (sp ++ body) = body := by
  unfold pyStrip
  rw [String.data_append]
  show (pyStripChars (sp.data ++ body.data)).asString = body
  unfold pyStripChars
  rw [dropWhile_append_all sp.data body.data hsp]
  have h2 : pyStripChars body.data = body.data := pyStripChars_of_ends hne hh hl
  unfold pyStripChars at h2
  rw [h2]
  exact data_asString body

lemma stripQuotesChars_wrap (t : List Char) (h : ∀ a ∈ t, a ≠ dq) :
    stripQuotesChars (dq :: t ++ [dq]) = t := by
  rw [List.cons_append]
  unfold stripQuotesChars
  rw [dropWhile_cons_pos (by simp)]
  cases t with
  | nil =>
    simp [List.dropWhile]
  | cons a t' =>
    rw [List.cons_append,
      dropWhile_cons_neg (by simp [h a (List.mem_cons_self a t')]),
      ← List.cons_append]
    have hrev : ((a :: t') ++ [dq]).reverse = dq :: (a :: t').reverse := by
      rw [List.reverse_append]
      rfl
    rw [hrev, dropWhile_cons_pos (by simp)]
    cases hr : (a :: t').reverse with
    | nil => exact absurd hr (by simp)
    | cons b rb =>
      have hb : b = (a :: t').getLast (by simp) := by
        have h1 : (a :: t').getLast? = some b := by
          rw [← List.head?_reverse, hr]
          rfl
        have h2 := List.getLast?_eq_getLast (a :: t') (by simp)
        rw [h1] at h2
        exact Option.some_injective _ h2
      have hbne : b ≠ dq := by
        rw [hb]
        exact h _ (List.getLast_mem (by simp))
      rw [dropWhile_cons_neg (by simp [hbne])]
      rw [← hr, List.reverse_reverse]

/-! ## Helper lemmas: `shlex` and `maxsplit=2` tokenization on the
serialized line shapes -/


lemma plainChar_split {c : Char} (h : plainChar c = true) :
    isShWs c = false ∧ c ≠ squote ∧ c ≠ dq ∧ c ≠ bslash := by
  unfold plainChar at h
  refine ⟨?_, ?_, ?_, ?_⟩ <;>
    (first
      | (cases hb : isShWs c
         · rfl
         · rw [hb] at h; simp at h)
      | (intro he; rw [he] at h; simp at h))

lemma shlexAux_norm_word :
    ∀ (w : List Char) (tk : List Char) (acc : List (List Char))
      (rest : List Char), (∀ a ∈ w, plainChar a = true) →
      shlexAux .norm (some tk) acc (w ++ rest) =
        shlexAux .norm (some (tk ++ w)) acc rest
  | [], tk, acc, rest, _ => by simp
  | c :: w, tk, acc, rest, h => by
    obtain ⟨h1, h2, h3, h4⟩ := plainChar_split (h c (List.mem_cons_self c w))
    rw [List.cons_append]
    show shlexAux .norm (some tk) acc (c :: (w ++ rest)) = _
    simp only [shlexAux]
    rw [if_neg (by simp [h1]), if_neg h2, if_neg h3, if_neg h4]
    show shlexAux .norm (some (tk ++ [c])) acc (w ++ rest) = _
    rw [shlexAux_norm_word w (tk ++ [c]) acc rest
      (fun a ha => h a (List.mem_cons_of_mem c ha))]
    simp

lemma shlexAux_norm_nil (tk : List Char) (acc : List (List Char)) :
    shlexAux .norm (some tk) acc [] = .ok (acc ++ [tk]) := by
  simp only [shlexAux]
  rfl

lemma shlexAux_dq_clean :
    ∀ (t : List Char) (tk : List Char) (acc : List (List Char))
      (rest : List Char), (∀ a ∈ t, a ≠ dq ∧ a ≠ bslash) →
      shlexAux .dqm (some tk) acc (t ++ dq :: rest) =
        shlexAux .norm (some (tk ++ t)) acc rest
  | [], tk, acc, rest, _ => by
    rw [List.nil_append]
    simp [shlexAux]
  | c :: t, tk, acc, rest, h => by
    obtain ⟨h1, h2⟩ := h c (List.mem_cons_self c t)
    rw [List.cons_append]
    simp only [shlexAux]
    rw [if_neg h1, if_neg h2]
    show shlexAux .dqm (some (tk ++ [c])) acc (t ++ dq :: rest) = _
    rw [shlexAux_dq_clean t (tk ++ [c]) acc rest
      (fun a ha => h a (List.mem_cons_of_mem c ha))]
    simp

/-- `shlex.split` on a serialized `KEY "value"` line. -/
lemma shlexSplit_keyval (w t : String)
    (hw : ∃ a w', w.data = a :: w')
    (hwp : ∀ a ∈ w.data, plainChar a = true)
    (ht : ∀ a ∈ t.data, a ≠ dq ∧ a ≠ bslash) :
    shlexSplit (w ++ " \"" ++ t ++ "\"") = .ok [w, t] := by
  unfold shlexSplit
  have hd : (w ++ " \"" ++ t ++ "\"").data =
      w.data ++ (' ' :: (dq :: (t.data ++ [dq]))) := by
    rw [String.data_append, String.data_append, String.data_append]
    have hq1 : (" \"" : String).data = [' ', dq] := rfl
    have hq2 : ("\"" : String).data = [dq] := rfl
    rw [hq1, hq2]
    simp
  rw [hd]
  obtain ⟨a, w', hw'⟩ := hw
  obtain ⟨h1, h2, h3, h4⟩ := plainChar_split
    (hwp a (by rw [hw']; exact List.mem_cons_self a w'))
  rw [hw', List.cons_append]
  simp only [shlexAux]
  rw [if_neg (by simp [h1]), if_neg h2, if_neg h3, if_neg h4]
  simp only [Option.getD_none, List.nil_append]
  rw [shlexAux_norm_word w' [a] [] _
    (fun b hb => hwp b (by rw [hw']; exact List.mem_cons_of_mem a hb))]
  have w1 : isShWs ' ' = true := rfl
  have w2 : isShWs dq = false := rfl
  have w3 : ¬ (dq = squote) := by decide
  simp only [shlexAux, w1, if_true, pushTok, List.nil_append, w2,
    Bool.false_eq_true, if_false, w3, eq_self_iff_true, Option.getD_none]
  rw [show t.data ++ [dq] = t.data ++ dq :: [] from rfl]
  rw [shlexAux_dq_clean t.data [] _ [] ht]
  rw [shlexAux_norm_nil]
  have haw : [a] ++ w' = w.data := by rw [hw']; rfl
  rw [haw]
  simp [Except.map, data_asString]

lemma pySplitWsMax2Chars_three (a1 a2 a3 : Char) (r1 r2 r3 : List Char)
    (h1w : ∀ a ∈ a1 :: r1, isPyWs a = false)
    (h2w : ∀ a ∈ a2 :: r2, isPyWs a = false)
    (h3 : isPyWs a3 = false) :
    pySplitWsMax2Chars ((a1 :: r1) ++ ' ' :: ((a2 :: r2) ++ ' ' :: (a3 :: r3))) =
      [a1 :: r1, a2 :: r2, a3 :: r3] := by
  have hnb1 : ∀ a ∈ a1 :: r1, (fun c => !(isPyWs c)) a = true := by
    intro a ha; simp [h1w a ha]
  have hnb2 : ∀ a ∈ a2 :: r2, (fun c => !(isPyWs c)) a = true := by
    intro a ha; simp [h2w a ha]
  have hsp : (fun c => !(isPyWs c)) ' ' = false := rfl
  have hd1 : List.dropWhile isPyWs
      ((a1 :: r1) ++ ' ' :: ((a2 :: r2) ++ ' ' :: (a3 :: r3))) =
      (a1 :: r1) ++ ' ' :: ((a2 :: r2) ++ ' ' :: (a3 :: r3)) := by
    rw [List.cons_append,
      dropWhile_cons_neg (h1w a1 (List.mem_cons_self a1 r1)), ← List.cons_append]
  have hr1 : wsRest ((a1 :: r1) ++ ' ' :: ((a2 :: r2) ++ ' ' :: (a3 :: r3))) =
      (a2 :: r2) ++ ' ' :: (a3 :: r3) := by
    unfold wsRest
    rw [dropWhile_append_stop _ _ _ hnb1 hsp]
    rw [dropWhile_cons_pos (show isPyWs ' ' = true from rfl)]
    rw [List.cons_append,
      dropWhile_cons_neg (h2w a2 (List.mem_cons_self a2 r2)), ← List.cons_append]
  have hr2 : wsRest ((a2 :: r2) ++ ' ' :: (a3 :: r3)) = a3 :: r3 := by
    unfold wsRest
    rw [dropWhile_append_stop _ _ _ hnb2 hsp]
    rw [dropWhile_cons_pos (show isPyWs ' ' = true from rfl)]
    rw [dropWhile_cons_neg h3]
  have ht1 : wsTok ((a1 :: r1) ++ ' ' :: ((a2 :: r2) ++ ' ' :: (a3 :: r3))) =
      a1 :: r1 := takeWhile_append_stop _ _ _ hnb1 hsp
  have ht2 : wsTok ((a2 :: r2) ++ ' ' :: (a3 :: r3)) = a2 :: r2 :=
    takeWhile_append_stop _ _ _ hnb2 hsp
  unfold pySplitWsMax2Chars
  rw [hd1, hr1, hr2, ht1, ht2]
  rw [if_neg (by simp), if_neg (by simp), if_neg (by simp)]

lemma getLastD_append_right {α : Type} (A B : List α) (d : α) (h : B ≠ []) :
    (A ++ B).getLastD d = B.getLastD d := by
  rw [List.getLastD_eq_getLast?, List.getLastD_eq_getLast?, List.getLast?_append]
  cases hB : B.getLast? with
  | none =>
    exfalso
    exact h (List.getLast?_eq_none_iff.mp hB)
  | some b => rfl

lemma keyval_data (w t : String) :
    (w ++ " \"" ++ t ++ "\"").data = w.data ++ ' ' :: dq :: (t.data ++ [dq]) := by
  rw [String.data_append, String.data_append, String.data_append]
  have hq1 : (" \"" : String).data = [' ', dq] := rfl
  have hq2 : ("\"" : String).data = [dq] := rfl
  rw [hq1, hq2]
  simp

lemma pyStrip_of_ends (body : String) (hne : body.data ≠ [])
    (hh : isPyWs (body.data.headD ' ') = false)
    (hl : isPyWs (body.data.getLastD ' ') = false) : pyStrip body = body := by
  unfold pyStrip
  rw [pyStripChars_of_ends hne hh hl]
  exact data_asString body

/-- Tokenizing a serialized `KEY "value"` line. -/
lemma cueTokens_keyval (w t : String)
    (hw : ∃ a w', w.data = a :: w')
    (hwp : ∀ a ∈ w.data, plainChar a = true)
    (ht : ∀ a ∈ t.data, a ≠ dq ∧ a ≠ bslash) :
    cueTokens (w ++ " \"" ++ t ++ "\"") = .ok [w, t] := by
  unfold cueTokens
  rw [if_pos ?hq]
  case hq =>
    rw [keyval_data]
    rw [List.any_eq_true]
    refine ⟨dq, ?_, by simp⟩
    refine List.mem_append.mpr (Or.inr ?_)
    simp
  rw [shlexSplit_keyval w t hw hwp ht]

/-- The value extraction `line.partition(' ')[2].strip().strip('"')` on a
serialized `KEY "value"` line. -/
lemma value_keyval (w t : String)
    (_hw : ∃ a w', w.data = a :: w')
    (hwsp : ∀ a ∈ w.data, a ≠ ' ')
    (ht : ∀ a ∈ t.data, a ≠ dq) :
    stripQuotes (pyStrip (pyPartitionAfterSpace (w ++ " \"" ++ t ++ "\""))) = t := by
  have hpart : pyPartitionAfterSpace (w ++ " \"" ++ t ++ "\"") =
      (dq :: (t.data ++ [dq])).asString := by
    unfold pyPartitionAfterSpace
    rw [keyval_data]
    have hdrop : List.dropWhile (fun c => decide (c ≠ ' '))
        (w.data ++ ' ' :: (dq :: (t.data ++ [dq]))) =
        ' ' :: (dq :: (t.data ++ [dq])) := by
      apply dropWhile_append_stop
      · intro a ha; simp [hwsp a ha]
      · simp
    rw [hdrop]
    rfl
  rw [hpart]
  have hstrip : pyStrip ((dq :: (t.data ++ [dq])).asString) =
      (dq :: (t.data ++ [dq])).asString := by
    apply pyStrip_of_ends
    · rw [asString_data]; simp
    · rw [asString_data]; rfl
    · rw [asString_data]
      have : dq :: (t.data ++ [dq]) = (dq :: t.data) ++ [dq] := by simp
      rw [this, getLastD_append_right _ _ _ (by simp)]
      rfl
  rw [hstrip]
  unfold stripQuotes
  rw [asString_data]
  have : dq :: (t.data ++ [dq]) = dq :: t.data ++ [dq] := by simp
  rw [this, stripQuotesChars_wrap t.data ht]
  exact data_asString t

/-! ## Helper lemmas: `cueLine` on each serialized line shape -/


lemma keyval_ne_empty (w t : String) (hw : ∃ a w', w.data = a :: w') :
    ¬ (w ++ " \"" ++ t ++ "\"" = "") := by
  intro h
  have hd := congrArg String.data h
  rw [keyval_data] at hd
  obtain ⟨a, w', hw'⟩ := hw
  rw [hw'] at hd
  simp at hd

lemma pyStrip_keyval (w t : String)
    (hw : ∃ a w', w.data = a :: w')
    (hh : isPyWs (w.data.headD ' ') = false) :
    pyStrip (w ++ " \"" ++ t ++ "\"") = w ++ " \"" ++ t ++ "\"" := by
  apply pyStrip_of_ends
  · rw [keyval_data]
    obtain ⟨a, w', hw'⟩ := hw
    rw [hw']
    simp
  · rw [keyval_data]
    obtain ⟨a, w', hw'⟩ := hw
    rw [hw'] at hh ⊢
    simpa using hh
  · rw [keyval_data]
    have hre : w.data ++ ' ' :: (dq :: (t.data ++ [dq])) =
        (w.data ++ ' ' :: dq :: t.data) ++ [dq] := by simp
    rw [hre, getLastD_append_right _ _ _ (by simp)]
    rfl

lemma pyStrip_sp_keyval (sp w t : String)
    (hsp : ∀ a ∈ sp.data, isPyWs a = true)
    (hw : ∃ a w', w.data = a :: w')
    (hh : isPyWs (w.data.headD ' ') = false) :
    pyStrip (sp ++ (w ++ " \"" ++ t ++ "\"")) = w ++ " \"" ++ t ++ "\"" := by
  apply pyStrip_concat sp _ hsp
  · rw [keyval_data]
    obtain ⟨a, w', hw'⟩ := hw
    rw [hw']
    simp
  · rw [keyval_data]
    obtain ⟨a, w', hw'⟩ := hw
    rw [hw'] at hh ⊢
    simpa using hh
  · rw [keyval_data]
    have hre : w.data ++ ' ' :: (dq :: (t.data ++ [dq])) =
        (w.data ++ ' ' :: dq :: t.data) ++ [dq] := by simp
    rw [hre, getLastD_append_right _ _ _ (by simp)]
    rfl

lemma cueLine_album_title (st : CueState) (t : String)
    (ht : ∀ c ∈ t.data, c ≠ dq ∧ c ≠ bslash) (hcur : st.current = none) :
    cueLine st (albumTitleLine t) =
      .ok { st with album := { st.album with titleA := some t } } := by
  have hform : albumTitleLine t = "TITLE" ++ " \"" ++ t ++ "\"" := rfl
  rw [hform]
  unfold cueLine
  rw [pyStrip_keyval "TITLE" t ⟨'T', _, rfl⟩ (by decide)]
  rw [if_neg (keyval_ne_empty "TITLE" t ⟨'T', _, rfl⟩)]
  rw [cueTokens_keyval "TITLE" t ⟨'T', _, rfl⟩ (by decide) ht]
  rw [value_keyval "TITLE" t ⟨'T', _, rfl⟩ (by decide) (fun a ha => (ht a ha).1)]
  simp only [bind, Except.bind, pure, Except.pure]
  rw [hcur]
  simp only [Option.isNone_none, Bool.and_true]
  rw [if_neg (by decide), if_neg (by decide), if_pos (by decide)]

lemma cueLine_track_title (st : CueState) (tr : CueTrack) (t : String)
    (ht : ∀ c ∈ t.data, c ≠ dq ∧ c ≠ bslash) (hcur : st.current = some tr) :
    cueLine st (trackTitleLine t) =
      .ok { st with current := some { tr with titleT := some t } } := by
  have hform : trackTitleLine t = "    " ++ ("TITLE" ++ " \"" ++ t ++ "\"") := rfl
  rw [hform]
  unfold cueLine
  rw [pyStrip_sp_keyval "    " "TITLE" t (by decide) ⟨'T', _, rfl⟩ (by decide)]
  rw [if_neg (keyval_ne_empty "TITLE" t ⟨'T', _, rfl⟩)]
  rw [cueTokens_keyval "TITLE" t ⟨'T', _, rfl⟩ (by decide) ht]
  rw [value_keyval "TITLE" t ⟨'T', _, rfl⟩ (by decide) (fun a ha => (ht a ha).1)]
  simp only [bind, Except.bind, pure, Except.pure]
  rw [hcur]
  simp only [Option.isNone_some, Bool.and_false]
  rw [if_neg (by decide), if_neg (by simp), if_neg (by simp), if_neg (by decide),
    if_neg (by decide), if_neg (by decide), if_pos (by decide)]

lemma cueLine_track_performer (st : CueState) (tr : CueTrack) (t : String)
    (ht : ∀ c ∈ t.data, c ≠ dq ∧ c ≠ bslash) (hcur : st.current = some tr) :
    cueLine st (trackPerformerLine t) =
      .ok { st with current := some { tr with performerT := some t } } := by
  have hform : trackPerformerLine t = "    " ++ ("PERFORMER" ++ " \"" ++ t ++ "\"") := rfl
  rw [hform]
  unfold cueLine
  rw [pyStrip_sp_keyval "    " "PERFORMER" t (by decide) ⟨'P', _, rfl⟩ (by decide)]
  rw [if_neg (keyval_ne_empty "PERFORMER" t ⟨'P', _, rfl⟩)]
  rw [cueTokens_keyval "PERFORMER" t ⟨'P', _, rfl⟩ (by decide) ht]
  rw [value_keyval "PERFORMER" t ⟨'P', _, rfl⟩ (by decide) (fun a ha => (ht a ha).1)]
  simp only [bind, Except.bind, pure, Except.pure]
  rw [hcur]
  simp only [Option.isNone_some, Bool.and_false]
  rw [if_neg (by decide), if_neg (by simp), if_neg (by simp), if_neg (by decide),
    if_neg (by decide), if_pos (by decide)]


lemma any_dq_false_of_digits {z : List Char} (hz : z.all Char.isDigit = true) :
    z.any (fun c => decide (c = dq)) = false := by
  cases hb : z.any (fun c => decide (c = dq)) with
  | false => rfl
  | true =>
    exfalso
    obtain ⟨x, hx, hxd⟩ := List.any_eq_true.mp hb
    have hdig := List.all_eq_true.mp hz x hx
    have : x ≠ dq := char_ne_of_isDigit hdig (by decide)
    simp [this] at hxd

lemma cueLine_track_header (st : CueState) (k : Nat) :
    cueLine st (trackHeaderLine k) =
      .ok ⟨st.album, st.tracks ++ st.current.toList,
        some { number := (k : Int) }⟩ := by
  obtain ⟨hzd, hzv, hzne⟩ :=
    pyZfill_digits 2 (Nat.repr k) (repr_spec k).1 (repr_spec k).2.2
  obtain ⟨c2, r2, hz⟩ : ∃ c r, (pyZfill 2 (Nat.repr k)).data = c :: r := by
    cases hb : (pyZfill 2 (Nat.repr k)).data with
    | nil => exact absurd hb hzne
    | cons c r => exact ⟨c, r, rfl⟩
  have hzw : ∀ a ∈ (pyZfill 2 (Nat.repr k)).data, isPyWs a = false := by
    intro a ha
    exact isPyWs_eq_false_of_isDigit (List.all_eq_true.mp hzd a ha)
  have hform : trackHeaderLine k =
      "  " ++ ("TRACK " ++ pyZfill 2 (Nat.repr k) ++ " AUDIO") := rfl
  rw [hform]
  unfold cueLine
  have hbd : ("TRACK " ++ pyZfill 2 (Nat.repr k) ++ " AUDIO").data =
      ("TRACK ".data ++ (pyZfill 2 (Nat.repr k)).data) ++ " AUDIO".data := by
    rw [String.data_append, String.data_append]
  rw [pyStrip_concat "  " _ (by decide) ?hne ?hh ?hl]
  case hne =>
    rw [hbd]
    simp
  case hh =>
    rw [hbd]
    rfl
  case hl =>
    rw [hbd]
    rw [getLastD_append_right _ _ _ (by simp)]
    rfl
  rw [if_neg ?hnem]
  case hnem =>
    intro h
    have hc := congrArg String.data h
    rw [hbd] at hc
    simp at hc
  unfold cueTokens
  rw [if_neg ?hnq]
  case hnq =>
    intro hq
    rw [hbd] at hq
    rw [List.any_append, List.any_append] at hq
    rw [any_dq_false_of_digits hzd] at hq
    simp at hq
    rcases hq with h | h <;> revert h <;> decide
  have hshape : ("TRACK " ++ pyZfill 2 (Nat.repr k) ++ " AUDIO").data =
      ('T' :: ['R', 'A', 'C', 'K']) ++ ' ' ::
        ((c2 :: r2) ++ ' ' :: ('A' :: ['U', 'D', 'I', 'O'])) := by
    rw [hbd, hz]
    simp
  unfold pySplitWsMax2
  rw [hshape]
  rw [pySplitWsMax2Chars_three 'T' c2 'A' ['R', 'A', 'C', 'K'] r2
    ['U', 'D', 'I', 'O'] (by decide)
    (by rw [← hz]; exact hzw) (by decide)]
  have hback : (c2 :: r2).asString = pyZfill 2 (Nat.repr k) := by
    rw [← hz]
    exact data_asString _
  simp only [List.map_cons, List.map_nil, hback]
  simp only [bind, Except.bind, pure, Except.pure]
  have hTRACK : (['T', 'R', 'A', 'C', 'K'] : List Char).asString = "TRACK" := rfl
  have hAUDIO : (['A', 'U', 'D', 'I', 'O'] : List Char).asString = "AUDIO" := rfl
  rw [hTRACK, hAUDIO]
  rw [if_neg (by decide),
    if_neg (by simp [show pyUpper "TRACK" ≠ "PERFORMER" by decide]),
    if_neg (by simp [show pyUpper "TRACK" ≠ "TITLE" by decide]),
    if_neg (by decide), if_pos (by decide)]
  simp only [List.get?_cons_succ, List.get?_cons_zero, pyInt_zfill_repr 2 k,
    bind, Except.bind, pure, Except.pure]

lemma cueLine_index (st : CueState) (tr : CueTrack) (m s : Nat)
    (hcur : st.current = some tr) :
    cueLine st (indexLine (m : Int) (s : Int)) =
      .ok { st with current := some { tr with
        indexT := some ["01", indexToken (m : Int) (s : Int)] } } := by
  obtain ⟨hm1, hm2, hm3⟩ :=
    pyZfill_digits 2 (Nat.repr m) (repr_spec m).1 (repr_spec m).2.2
  obtain ⟨hs1, hs2, hs3⟩ :=
    pyZfill_digits 2 (Nat.repr s) (repr_spec s).1 (repr_spec s).2.2
  have htokd : (indexToken (m : Int) (s : Int)).data =
      (pyZfill 2 (Nat.repr m)).data ++ ':' :: (pyZfill 2 (Nat.repr s)).data := by
    show ((pyZfill 2 (Nat.repr m) ++ ":") ++ pyZfill 2 (Nat.repr s)).data = _
    rw [String.data_append, String.data_append]
    simp
  have htokw : ∀ a ∈ (indexToken (m : Int) (s : Int)).data, isPyWs a = false := by
    intro a ha
    rw [htokd] at ha
    rcases List.mem_append.mp ha with h | h
    · exact isPyWs_eq_false_of_isDigit (List.all_eq_true.mp hm1 a h)
    · rcases List.mem_cons.mp h with rfl | h
      · rfl
      · exact isPyWs_eq_false_of_isDigit (List.all_eq_true.mp hs1 a h)
  obtain ⟨ct, rt, hzt⟩ : ∃ c r, (indexToken (m : Int) (s : Int)).data = c :: r := by
    rw [htokd]
    cases hb : (pyZfill 2 (Nat.repr m)).data with
    | nil => exact absurd hb hm3
    | cons c r => exact ⟨c, r ++ ':' :: (pyZfill 2 (Nat.repr s)).data, rfl⟩
  have hform : indexLine (m : Int) (s : Int) =
      "    " ++ ("INDEX " ++ ("01 " ++ indexToken (m : Int) (s : Int))) := rfl
  rw [hform]
  unfold cueLine
  have hbd : ("INDEX " ++ ("01 " ++ indexToken (m : Int) (s : Int))).data =
      "INDEX ".data ++ ("01 ".data ++ (indexToken (m : Int) (s : Int)).data) := by
    rw [String.data_append, String.data_append]
  rw [pyStrip_concat "    " _ (by decide) ?hne ?hh ?hl]
  case hne =>
    rw [hbd]
    simp
  case hh =>
    rw [hbd]
    rfl
  case hl =>
    rw [hbd, htokd]
    obtain ⟨r0, a0, hs0⟩ :=
      (List.eq_nil_or_concat (pyZfill 2 (Nat.repr s)).data).resolve_left hs3
    rw [hs0]
    have hre : "INDEX ".data ++ ("01 ".data ++
        ((pyZfill 2 (Nat.repr m)).data ++ ':' :: (r0.concat a0))) =
        ("INDEX ".data ++ "01 ".data ++ (pyZfill 2 (Nat.repr m)).data ++
          ':' :: r0) ++ [a0] := by
      simp [List.concat_eq_append]
    rw [hre, getLastD_append_right _ _ _ (by simp)]
    have ha0 : a0 ∈ (pyZfill 2 (Nat.repr s)).data := by
      rw [hs0]
      simp [List.concat_eq_append]
    have hn := isPyWs_eq_false_of_isDigit (List.all_eq_true.mp hs1 a0 ha0)
    simpa using hn
  rw [if_neg ?hnem]
  case hnem =>
    intro h
    have hc := congrArg String.data h
    rw [hbd] at hc
    simp at hc
  unfold cueTokens
  rw [if_neg ?hnq]
  case hnq =>
    intro hq
    rw [hbd] at hq
    rw [List.any_append, List.any_append] at hq
    have hta : (indexToken (m : Int) (s : Int)).data.any
        (fun c => decide (c = dq)) = false := by
      cases hb : (indexToken (m : Int) (s : Int)).data.any
          (fun c => decide (c = dq)) with
      | false => rfl
      | true =>
        exfalso
        obtain ⟨x, hx, hxd⟩ := List.any_eq_true.mp hb
        rw [htokd] at hx
        have hxne : x ≠ dq := by
          rcases List.mem_append.mp hx with h1 | h1
          · exact char_ne_of_isDigit (List.all_eq_true.mp hm1 x h1) (by decide)
          · rcases List.mem_cons.mp h1 with rfl | h1
            · decide
            · exact char_ne_of_isDigit (List.all_eq_true.mp hs1 x h1) (by decide)
        simp [hxne] at hxd
    rw [hta] at hq
    simp at hq
    rcases hq with h | h <;> revert h <;> decide
  have hshape : ("INDEX " ++ ("01 " ++ indexToken (m : Int) (s : Int))).data =
      ('I' :: ['N', 'D', 'E', 'X']) ++ ' ' ::
        (('0' :: ['1']) ++ ' ' :: (ct :: rt)) := by
    rw [hbd, hzt]
    simp
  unfold pySplitWsMax2
  rw [hshape]
  rw [pySplitWsMax2Chars_three 'I' '0' ct ['N', 'D', 'E', 'X'] ['1'] rt
    (by decide) (by decide)
    (by have hctm : ct ∈ (indexToken (m : Int) (s : Int)).data := by
          rw [hzt]; exact List.mem_cons_self _ _
        exact htokw ct hctm)]
  have hback : (ct :: rt).asString = indexToken (m : Int) (s : Int) := by
    rw [← hzt]
    exact data_asString _
  simp only [List.map_cons, List.map_nil, hback]
  simp only [bind, Except.bind, pure, Except.pure]
  have hINDEX : (['I', 'N', 'D', 'E', 'X'] : List Char).asString = "INDEX" := rfl
  have h01 : (['0', '1'] : List Char).asString = "01" := rfl
  rw [hINDEX, h01]
  rw [hcur]
  rw [if_neg (by decide),
    if_neg (by simp [show pyUpper "INDEX" ≠ "PERFORMER" by decide]),
    if_neg (by simp [show pyUpper "INDEX" ≠ "TITLE" by decide]),
    if_neg (by decide), if_neg (by decide), if_neg (by decide),
    if_neg (by decide), if_pos (by decide)]
  rfl

/-! ## The round trip: serialized sheets parse back -/


lemma goodStr_facts {s : String} (h : goodStr s = true) :
    ∀ c ∈ s.data, c ≠ dq ∧ c ≠ bslash := by
  intro c hc
  have hb := List.all_eq_true.mp h c hc
  constructor
  · intro he
    rw [he] at hb
    simp at hb
  · intro he
    rw [he] at hb
    simp [show ¬ (bslash = dq) by decide] at hb


lemma mkRecords_length : ∀ (k : Nat) (ts : List GenTrack),
    (mkRecords k ts).length = ts.length
  | _, [] => rfl
  | k, _ :: gs => by
    simp [mkRecords, mkRecords_length (k + 1) gs]

lemma runCue_blocks :
    ∀ (ts : List GenTrack) (k : Nat) (alb : CueAlbum)
      (closed : List CueTrack) (cur : Option CueTrack),
      (∀ g ∈ ts, goodStr g.title = true ∧ goodStr g.performer = true) →
      ∃ st', (serializeBlocks k ts).foldlM cueLine ⟨alb, closed, cur⟩ = .ok st' ∧
        st'.album = alb ∧
        st'.tracks ++ st'.current.toList =
          closed ++ cur.toList ++ mkRecords k ts := by
  intro ts
  induction ts with
  | nil =>
    intro k alb closed cur _
    refine ⟨⟨alb, closed, cur⟩, ?_, rfl, by simp [mkRecords]⟩
    simp only [serializeBlocks, List.foldlM_nil]
    rfl
  | cons g gs ih =>
    intro k alb closed cur hgood
    obtain ⟨hgt, hgp⟩ := hgood g (List.mem_cons_self g gs)
    have hgs : ∀ x ∈ gs, goodStr x.title = true ∧ goodStr x.performer = true :=
      fun x hx => hgood x (List.mem_cons_of_mem g hx)
    rw [serializeBlocks]
    rw [List.foldlM_cons, cueLine_track_header ⟨alb, closed, cur⟩ k]
    have hbind : ∀ (x : CueState) (f : CueState → Except PyError CueState),
        ((Except.ok x : Except PyError CueState) >>= f) = f x := fun _ _ => rfl
    rw [hbind]
    rw [List.foldlM_cons,
      cueLine_track_title _ _ g.title (goodStr_facts hgt) rfl, hbind]
    rw [List.foldlM_cons,
      cueLine_track_performer _ _ g.performer (goodStr_facts hgp) rfl, hbind]
    rw [List.foldlM_cons,
      cueLine_index _ _ g.minutes g.seconds rfl, hbind]
    obtain ⟨st', heq, halb, htr⟩ :=
      ih (k + 1) alb (closed ++ cur.toList)
        (some { number := (k : Int), titleT := some g.title,
                performerT := some g.performer,
                indexT := some ["01",
                  indexToken (g.minutes : Int) (g.seconds : Int)] }) hgs
    refine ⟨st', heq, halb, ?_⟩
    rw [htr]
    simp [mkRecords]

/-- Parsing a serialized sheet succeeds and reconstructs the document. -/
lemma parse_cue_serializeSheet (a : String) (ts : List GenTrack)
    (ha : goodStr a = true)
    (hts : ∀ g ∈ ts, goodStr g.title = true ∧ goodStr g.performer = true) :
    parse_cue (serializeSheet a ts) =
      .ok ⟨{ titleA := some a }, mkRecords 1 ts⟩ := by
  unfold parse_cue serializeSheet
  rw [List.foldlM_cons,
    cueLine_album_title ⟨{}, [], none⟩ a (goodStr_facts ha) rfl]
  have hbind : ∀ (x : CueState) (f : CueState → Except PyError CueState),
      ((Except.ok x : Except PyError CueState) >>= f) = f x := fun _ _ => rfl
  rw [hbind]
  obtain ⟨st', heq, halb, htr⟩ :=
    runCue_blocks ts 1 { titleA := some a } [] none hts
  rw [heq]
  have : (Except.ok st' : Except PyError CueState) >>=
      (fun st => pure ⟨st.album, st.tracks ++ st.current.toList⟩) =
      Except.ok (⟨st'.album, st'.tracks ++ st'.current.toList⟩ : CueDoc) := rfl
  rw [this, halb, htr]
  simp




lemma cueLine_ok_of_goodLine (st : CueState) (raw : String)
    (h : goodLine raw = true) : ∃ st', cueLine st raw = .ok st' := by
  unfold cueLine
  by_cases hline : pyStrip raw = ""
  · rw [if_pos hline]
    exact ⟨st, rfl⟩
  · rw [if_neg hline]
    unfold goodLine at h
    rw [decide_eq_false hline, Bool.false_or] at h
    simp only [bind, Except.bind, pure, Except.pure]
    cases hts : cueTokens (pyStrip raw) with
    | error e => rw [hts] at h; simp at h
    | ok parts =>
      rw [hts] at h
      cases parts with
      | nil => simp at h
      | cons p0 ps =>
        dsimp only at h ⊢
        by_cases hrem : pyUpper p0 = "REM"
        · rw [if_pos hrem]
          by_cases hlen : (p0 :: ps).length ≥ 3
          · rw [if_pos hlen]; exact ⟨_, rfl⟩
          · rw [if_neg hlen]; exact ⟨_, rfl⟩
        · rw [if_neg hrem]
          by_cases hperf : pyUpper p0 = "PERFORMER"
          · by_cases hnone : st.current.isNone
            · rw [if_pos (by simp [hperf, hnone])]
              exact ⟨_, rfl⟩
            · rw [if_neg (by simp [hnone])]
              rw [if_neg (by simp [hnone])]
              rw [if_neg (by rw [hperf]; decide)]
              rw [if_neg (by rw [hperf]; decide)]
              rw [if_pos hperf]
              cases hcur : st.current with
              | some tr => exact ⟨_, rfl⟩
              | none => simp [hcur] at hnone
          · rw [if_neg (by simp [hperf])]
            by_cases htit : pyUpper p0 = "TITLE"
            · by_cases hnone : st.current.isNone
              · rw [if_pos (by simp [htit, hnone])]
                exact ⟨_, rfl⟩
              · rw [if_neg (by simp [hnone])]
                rw [if_neg (by rw [htit]; decide)]
                rw [if_neg (by rw [htit]; decide)]
                rw [if_neg hperf]
                rw [if_pos htit]
                cases hcur : st.current with
                | some tr => exact ⟨_, rfl⟩
                | none => simp [hcur] at hnone
            · rw [if_neg (by simp [htit])]
              by_cases hfile : pyUpper p0 = "FILE"
              · rw [if_pos hfile]
                rw [if_neg (by rw [hfile]; decide), if_pos hfile] at h
                cases hq : firstQuoted (pyStrip raw).data with
                | some content => exact ⟨_, rfl⟩
                | none =>
                  rw [hq] at h
                  simp only [Option.isSome_none, Bool.false_or] at h
                  cases ps with
                  | nil => simp at h
                  | cons p1 pr =>
                    simp only [List.get?_cons_succ, List.get?_cons_zero]
                    exact ⟨_, rfl⟩
              · rw [if_neg hfile]
                by_cases htrk : pyUpper p0 = "TRACK"
                · rw [if_pos htrk]
                  rw [if_pos htrk] at h
                  cases ps with
                  | nil => simp at h
                  | cons p1 pr =>
                    simp only [List.get?_cons_succ, List.get?_cons_zero]
                    dsimp only at h
                    cases hpi : pyInt p1 with
                    | error e =>
                      rw [hpi] at h
                      simp [exceptIsOk] at h
                    | ok v => exact ⟨_, rfl⟩
                · rw [if_neg htrk]
                  rw [if_neg hperf]
                  rw [if_neg htit]
                  by_cases hidx : pyUpper p0 = "INDEX"
                  · rw [if_pos hidx]
                    cases st.current with
                    | some tr => exact ⟨_, rfl⟩
                    | none => exact ⟨_, rfl⟩
                  · rw [if_neg hidx]
                    exact ⟨_, rfl⟩

lemma foldlM_cueLine_ok (lines : List String) (st : CueState)
    (h : ∀ l ∈ lines, goodLine l = true) :
    ∃ st', lines.foldlM cueLine st = .ok st' := by
  induction lines generalizing st with
  | nil => exact ⟨st, rfl⟩
  | cons l ls ih =>
    obtain ⟨st1, h1⟩ := cueLine_ok_of_goodLine st l (h l (by simp))
    obtain ⟨st2, h2⟩ := ih st1 (fun x hx => h x (by simp [hx]))
    refine ⟨st2, ?_⟩
    rw [List.foldlM_cons, h1]
    simpa [bind, Except.bind] using h2

lemma parse_cue_ok_of_goodLines (lines : List String)
    (h : ∀ l ∈ lines, goodLine l = true) :
    ∃ doc, parse_cue lines = .ok doc := by
  obtain ⟨st', hst⟩ := foldlM_cueLine_ok lines ⟨{}, [], none⟩ h
  exact ⟨⟨st'.album, st'.tracks ++ st'.current.toList⟩,
    by simp only [parse_cue, hst, bind, Except.bind, pure, Except.pure]⟩

/-! ## Helper lemmas: timestamp fields -/

lemma data_ne_nil_of_ne_empty {s : String} (h : s ≠ "") : s.data ≠ [] :=
  fun hd => h (congrArg String.mk hd)

lemma pySplitChars_single_mem (c : Char) :
    ∀ (cs : List Char), ∀ f ∈ pySplitChars [c] cs, ∀ a ∈ f, a ∈ cs ∧ a ≠ c
  | [] => by
    rw [pySplitChars_nil]
    intro f hf a ha
    rw [List.mem_singleton] at hf
    subst hf
    simp at ha
  | d :: rest => by
    rw [pySplitChars_cons]
    by_cases hd : d = c
    · subst hd
      have hc : ([d] ≠ [] ∧ List.isPrefixOf [d] (d :: rest)) :=
        ⟨by simp, by simp [List.isPrefixOf]⟩
      rw [if_pos hc]
      intro f hf a ha
      rcases List.mem_cons.mp hf with hf0 | hf2
      · subst hf0
        simp at ha
      · have hdrop : List.drop (List.length [d]) (d :: rest) = rest := by simp
        rw [hdrop] at hf2
        obtain ⟨hm, hne⟩ := pySplitChars_single_mem d rest f hf2 a ha
        exact ⟨List.mem_cons_of_mem d hm, hne⟩
    · have hdc : ¬ ([c] ≠ [] ∧ List.isPrefixOf [c] (d :: rest)) := by
        intro hcon
        have h2 := hcon.2
        simp [List.isPrefixOf] at h2
        exact hd h2.symm
      rw [if_neg hdc]
      intro f hf a ha
      cases hs : pySplitChars [c] rest with
      | nil => exact absurd hs (pySplitChars_ne_nil [c] rest)
      | cons f0 fs =>
        rw [hs] at hf
        simp only [consHead] at hf
        rcases List.mem_cons.mp hf with hf0 | hf2
        · subst hf0
          rcases List.mem_cons.mp ha with ha0 | ha2
          · subst ha0
            exact ⟨List.mem_cons_self a rest, hd⟩
          · obtain ⟨hm, hne⟩ := pySplitChars_single_mem c rest f0
              (by rw [hs]; exact List.mem_cons_self f0 fs) a ha2
            exact ⟨List.mem_cons_of_mem d hm, hne⟩
        · obtain ⟨hm, hne⟩ := pySplitChars_single_mem c rest f
            (by rw [hs]; exact List.mem_cons_of_mem f0 hf2) a ha
          exact ⟨List.mem_cons_of_mem d hm, hne⟩

lemma timestamp_field_digits {s : String} (h : is_timestamp s = true) :
    ∀ f ∈ pySplit s ":", f.data.all Char.isDigit = true := by
  intro f hf
  obtain ⟨cs, hcs, hf2⟩ := List.mem_map.mp hf
  rw [List.all_eq_true]
  intro a ha
  rw [← hf2, asString_data] at ha
  obtain ⟨hm, hne⟩ := pySplitChars_single_mem ':' s.data cs hcs a ha
  have hor := List.all_eq_true.mp h a hm
  rcases Bool.or_eq_true_iff.mp hor with hdig | hcol
  · exact hdig
  · exact absurd (by simpa using hcol) hne

/-! ## Helper lemmas: reconstructed track records -/

lemma mkRecords_get? : ∀ (k : Nat) (ts : List GenTrack) (i : Nat)
    (hi : i < ts.length),
    (mkRecords k ts).get? i = some
      { number := ((k + i : Nat) : Int),
        titleT := some (ts.get ⟨i, hi⟩).title,
        performerT := some (ts.get ⟨i, hi⟩).performer,
        indexT := some ["01",
          indexToken ((ts.get ⟨i, hi⟩).minutes : Int)
            ((ts.get ⟨i, hi⟩).seconds : Int)] }
  | _, [], i, hi => absurd hi (by simp)
  | k, g :: gs, 0, hi => by
    simp only [mkRecords, List.get?_cons_zero, List.get]
    norm_num
  | k, g :: gs, i + 1, hi => by
    simp only [mkRecords, List.get?_cons_succ]
    rw [mkRecords_get? (k + 1) gs i (by simpa using hi)]
    have hn : k + 1 + i = k + (i + 1) := by omega
    simp only [List.get]
    rw [hn]



lemma subNumPrefix_eq_claim (cls : Char → Bool) (tn : Nat) (name : String)
    (h : tn ≠ 0) :
    subNumPrefix cls tn name = claimStripAmendedSub cls tn name := by
  unfold subNumPrefix claimStripAmendedSub
  rw [if_neg h]

/-! ## The claims -/

/-- C1 (counterexample): an album title containing a double quote defeats
the round-trip — the serialized `TITLE` line has an odd number of quote
characters, so re-parsing the sheet aborts inside `shlex.split` with
"No closing quotation" instead of reproducing the document. -/
theorem c1_roundtrip_counterexample :
    parse_cue (serializeSheet "A\"B" []) =
      .error (.valueError "No closing quotation") := rfl

/-- C1 (amended): for every album title and sequence of track records
whose strings are free of double quotes, backslashes and newlines,
serializing with `parse_input_file`'s emitted text and re-parsing with
`parse_cue` reproduces the album title, the absent album performer, and
every track's title, performer and 1-based number, with the stored raw
`INDEX` tokens resolving back to the same minutes/seconds pair. -/
theorem c1_roundtrip_amended (a : String) (ts : List GenTrack)
    (ha : goodStr a = true)
    (hts : ∀ g ∈ ts, goodStr g.title = true ∧ goodStr g.performer = true) :
    ∃ doc, parse_cue (serializeSheet a ts) = .ok doc ∧
      doc.album.titleA = some a ∧ doc.album.performerA = none ∧
      doc.tracks.length = ts.length ∧
      ∀ i (hi : i < ts.length),
        ∃ tr, doc.tracks.get? i = some tr ∧
          tr.titleT = some (ts.get ⟨i, hi⟩).title ∧
          tr.performerT = some (ts.get ⟨i, hi⟩).performer ∧
          tr.number = ((i + 1 : Nat) : Int) ∧
          ∃ tok, tr.indexT = some ["01", tok] ∧
            get_min_sec_from_timestamp tok =
              .ok (((ts.get ⟨i, hi⟩).minutes : Int),
                ((ts.get ⟨i, hi⟩).seconds : Int)) := by
  refine ⟨⟨{ titleA := some a }, mkRecords 1 ts⟩,
    parse_cue_serializeSheet a ts ha hts, rfl, rfl, mkRecords_length 1 ts, ?_⟩
  intro i hi
  refine ⟨_, mkRecords_get? 1 ts i hi, rfl, rfl, ?_, ?_⟩
  · show ((1 + i : Nat) : Int) = ((i + 1 : Nat) : Int)
    norm_num [Nat.add_comm]
  · exact ⟨_, rfl, get_min_sec_indexToken _ _⟩

/-- C1 (witness): the amended round-trip at a concrete document. -/
theorem c1_roundtrip_witness :
    ∃ doc, parse_cue (serializeSheet "Album" [⟨"Song", "Artist", 3, 7⟩]) =
        .ok doc ∧
      doc.album.titleA = some "Album" ∧ doc.album.performerA = none ∧
      doc.tracks.length = ([⟨"Song", "Artist", 3, 7⟩] : List GenTrack).length ∧
      ∀ i (hi : i < ([⟨"Song", "Artist", 3, 7⟩] : List GenTrack).length),
        ∃ tr, doc.tracks.get? i = some tr ∧
          tr.titleT =
            some (([⟨"Song", "Artist", 3, 7⟩] : List GenTrack).get ⟨i, hi⟩).title ∧
          tr.performerT =
            some (([⟨"Song", "Artist", 3, 7⟩] : List GenTrack).get ⟨i, hi⟩).performer ∧
          tr.number = ((i + 1 : Nat) : Int) ∧
          ∃ tok, tr.indexT = some ["01", tok] ∧
            get_min_sec_from_timestamp tok =
              .ok (((([⟨"Song", "Artist", 3, 7⟩] : List GenTrack).get ⟨i, hi⟩).minutes : Int),
                ((([⟨"Song", "Artist", 3, 7⟩] : List GenTrack).get ⟨i, hi⟩).seconds : Int)) :=
  c1_roundtrip_amended "Album" [⟨"Song", "Artist", 3, 7⟩] (by decide)
    (fun g hg => by rw [List.mem_singleton.mp hg]; exact ⟨by decide, by decide⟩)

/-- C2 (counterexample): the prefix layer is not the claimed pattern
"optional zeros, then digits, then delimiters" — the source regex caps the
digit group at three digits, so the four-digit prefix of
`"1234-song.wav"` never matches it.  The code therefore resolves track
1234 through the padded-substring layer to `"x1234y.wav"`, while the
claim's own layering picks `"1234-song.wav"` at the first layer. -/
theorem c2_matcher_counterexample :
    find_track_file ["x1234y.wav", "1234-song.wav"] 1234 =
        some "x1234y.wav" ∧
    claimFind ["x1234y.wav", "1234-song.wav"] 1234 =
        some "1234-song.wav" ∧
    trackPrefixNum "1234-song.wav" = none := ⟨rfl, rfl, rfl⟩

/-- C2 (amended): `find_track_file` applies its layers in a fixed order
with the first match winning — the source's own prefix test (at most
three digits after the leading zeros), then the padded-substring test,
then the singleton fallback — and the claim's three concrete examples
hold. -/
theorem c2_matcher_amended :
    (∀ (candidates : List String) (n : Nat),
      find_track_file candidates n = layeredFind candidates n) ∧
    find_track_file ["02 - Song.wav", "01-intro.wav"] 1 = some "01-intro.wav" ∧
    find_track_file ["02 - Song.wav", "01-intro.wav"] 3 = none ∧
    find_track_file ["only.wav"] 1 = some "only.wav" := by
  refine ⟨?_, rfl, rfl, rfl⟩
  intro candidates n
  show (match candidates.find? (fun c => trackPrefixNum c = some n) with
    | some c => some c
    | none =>
      match candidates.find?
          (fun c => strContains c (pyZfill 2 (Nat.repr n))) with
      | some c => some c
      | none => if candidates.length = 1 then candidates.head? else none) =
    layeredFind candidates n
  unfold layeredFind
  cases candidates.find? (fun c => trackPrefixNum c = some n) with
  | some c => rfl
  | none =>
    cases candidates.find?
        (fun c => strContains c (pyZfill 2 (Nat.repr n))) with
    | some c => rfl
    | none => rfl

/-- C3 (counterexample): `":"` consists only of digits-or-colons and
splits into exactly two fields, yet `get_min_sec_from_timestamp` does not
return `(f0, f1)` — both fields are empty, so `int("")` raises
`ValueError` before any pair is built. -/
theorem c3_timestamp_counterexample :
    is_timestamp ":" = true ∧ pySplit ":" ":" = ["", ""] ∧
    get_min_sec_from_timestamp ":" =
      .error (.valueError "invalid literal for int() with base 10: ") :=
  ⟨rfl, rfl, rfl⟩

/-- C3 (amended): for every string of digits and colons all of whose
colon-separated fields are non-empty, two fields give
`(minutes = f0, seconds = f1)`, three fields give
`(minutes = f0*60+f1, seconds = f2)` (each field read as a decimal
numeral), and any other field count raises the `Invalid timestamp`
exception. -/
theorem c3_timestamp_amended (s : String)
    (hts : is_timestamp s = true)
    (hne : ∀ f ∈ pySplit s ":", f ≠ "") :
    (∀ a b, pySplit s ":" = [a, b] →
      get_min_sec_from_timestamp s =
        .ok ((natOfDigits a.data : Int), (natOfDigits b.data : Int))) ∧
    (∀ a b c, pySplit s ":" = [a, b, c] →
      get_min_sec_from_timestamp s =
        .ok ((natOfDigits a.data : Int) * 60 + (natOfDigits b.data : Int),
          (natOfDigits c.data : Int))) ∧
    ((pySplit s ":").length ≠ 2 → (pySplit s ":").length ≠ 3 →
      get_min_sec_from_timestamp s =
        .error (.invalidTimestamp ("Invalid timestamp: " ++ s))) := by
  refine ⟨?_, ?_, ?_⟩
  · intro a b hab
    have hda := timestamp_field_digits hts a (by rw [hab]; simp)
    have hdb := timestamp_field_digits hts b (by rw [hab]; simp)
    have hna := data_ne_nil_of_ne_empty (hne a (by rw [hab]; simp))
    have hnb := data_ne_nil_of_ne_empty (hne b (by rw [hab]; simp))
    unfold get_min_sec_from_timestamp
    rw [hab]
    rw [if_pos (show (List.length [a, b] : Nat) = 2 from rfl)]
    have e0 : List.getD [a, b] 0 "" = a := rfl
    have e1 : List.getD [a, b] 1 "" = b := rfl
    rw [e0, e1, pyInt_of_digits a hda hna, pyInt_of_digits b hdb hnb]
    rfl
  · intro a b c habc
    have hda := timestamp_field_digits hts a (by rw [habc]; simp)
    have hdb := timestamp_field_digits hts b (by rw [habc]; simp)
    have hdc := timestamp_field_digits hts c (by rw [habc]; simp)
    have hna := data_ne_nil_of_ne_empty (hne a (by rw [habc]; simp))
    have hnb := data_ne_nil_of_ne_empty (hne b (by rw [habc]; simp))
    have hnc := data_ne_nil_of_ne_empty (hne c (by rw [habc]; simp))
    unfold get_min_sec_from_timestamp
    rw [habc]
    rw [if_neg (show ¬ (List.length [a, b, c] : Nat) = 2 by simp)]
    rw [if_pos (show (List.length [a, b, c] : Nat) = 3 from rfl)]
    have e0 : List.getD [a, b, c] 0 "" = a := rfl
    have e1 : List.getD [a, b, c] 1 "" = b := rfl
    have e2 : List.getD [a, b, c] 2 "" = c := rfl
    rw [e0, e1, e2, pyInt_of_digits a hda hna, pyInt_of_digits b hdb hnb,
      pyInt_of_digits c hdc hnc]
    rfl
  · intro h2 h3
    unfold get_min_sec_from_timestamp
    rw [if_neg h2, if_neg h3]

/-- C3 (witness): the amended statement at the two-field timestamp
`"12:34"`. -/
theorem c3_timestamp_witness :
    get_min_sec_from_timestamp "12:34" =
      .ok ((natOfDigits "12".data : Int), (natOfDigits "34".data : Int)) :=
  (c3_timestamp_amended "12:34" (by decide) (by decide)).1 "12" "34" rfl

/-- C4 (counterexample): the sheet parser is not total — a line holding a
single double-quote character reaches `shlex.split`, which raises
`ValueError("No closing quotation")`, so `parse_cue` fails instead of
skipping the malformed line. -/
theorem c4_parser_total_counterexample :
    parse_cue ["\""] = .error (.valueError "No closing quotation") := rfl

/-- C4 (amended): `parse_cue` returns a document without raising on every
line list whose lines are blank or tokenize successfully, carry an
integer-literal second token when dispatched as `TRACK`, and carry a
quoted name or a second token when dispatched as `FILE`; unknown first
keywords and short `REM` lines are ignored, never an error. -/
theorem c4_parser_total_amended (lines : List String)
    (h : ∀ l ∈ lines, goodLine l = true) :
    ∃ doc, parse_cue lines = .ok doc :=
  parse_cue_ok_of_goodLines lines h

/-- C4 (witness): a parse over unknown keywords, a short `REM` line, a
quoted `FILE` line and a `TRACK` header returns a document. -/
theorem c4_parser_total_witness :
    ∃ doc, parse_cue
      ["REM", "FOO bar baz", "FILE \"a.wav\" WAVE", "TRACK 01 AUDIO", "  "] =
        .ok doc :=
  c4_parser_total_amended
    ["REM", "FOO bar baz", "FILE \"a.wav\" WAVE", "TRACK 01 AUDIO", "  "]
    (by decide)

/-- C5 (counterexample): on a line containing `"Title: "` twice the
emitted album title is the text after the *last* occurrence
(`split("Title: ")[-1]`), not the text after the first occurrence as
claimed. -/
theorem c5_title_counterexample :
    parse_input_file true ["Title: A Title: B"] = .ok ["TITLE \"B\""] ∧
    titleTextAfterFirst "Title: A Title: B" = "A Title: B" := ⟨rfl, rfl⟩

/-- C5 (amended): a line beginning with `Title:` or `# Title:` makes the
tracklist parser emit, immediately, the serialized `TITLE` line holding
the text after the last occurrence of `"Title: "`, and continue with the
track counter unchanged. -/
theorem c5_title_amended (oaf : Bool) (line : String) (rest : List String)
    (counter : Nat) (acc : List String)
    (h : pyStartsWith line "Title:" = true ∨
      pyStartsWith line "# Title:" = true) :
    parse_go oaf counter acc (line :: rest) =
      parse_go oaf counter
        (acc ++ [albumTitleLine ((pySplit line "Title: ").getLastD "")])
        rest := by
  rw [parse_go]
  rw [if_pos (Bool.or_eq_true_iff.mpr h)]
  rfl

/-- C5 (witness): the amended title step at a concrete line. -/
theorem c5_title_witness :
    parse_go true 7 [] ["# Title: My Album"] =
      parse_go true 7 ["TITLE \"My Album\""] [] :=
  c5_title_amended true "# Title: My Album" [] 7 [] (Or.inr (by decide))

/-- C6 (counterexample): the singleton fallback keeps no record of files
already claimed and checks no track count — processing two tracks against
the single candidate `"only.wav"` (which matches neither layer for either
number) returns the same file for both, though it was already claimed by
track 1 and the album has two tracks. -/
theorem c6_singleton_counterexample :
    processFound ["only.wav"] [1, 2] =
      [some "only.wav", some "only.wav"] ∧
    trackPrefixNum "only.wav" = none ∧
    strContains "only.wav" (pyZfill 2 (Nat.repr 1)) = false ∧
    strContains "only.wav" (pyZfill 2 (Nat.repr 2)) = false :=
  ⟨rfl, rfl, rfl, rfl⟩

/-- C6 (amended): whenever exactly one candidate matches the pattern and
neither numeric layer matches it, the singleton fallback returns that
candidate — unconditionally, with no not-already-claimed condition and no
track-count condition. -/
theorem c6_singleton_amended (c : String) (n : Nat)
    (h1 : trackPrefixNum c ≠ some n)
    (h2 : strContains c (pyZfill 2 (Nat.repr n)) = false) :
    find_track_file [c] n = some c := by
  show (match [c].find? (fun x => trackPrefixNum x = some n) with
    | some x => some x
    | none =>
      match [c].find? (fun x => strContains x (pyZfill 2 (Nat.repr n))) with
      | some x => some x
      | none => if ([c] : List String).length = 1 then [c].head? else none) =
    some c
  rw [List.find?_cons_of_neg _ (by simpa using h1), List.find?_nil]
  rw [List.find?_cons_of_neg _ (by simpa using h2), List.find?_nil]
  rfl

/-- C6 (witness): the fallback fires for track 2 on the sole candidate
`"only.wav"`, with no claimed-tracking to stop it. -/
theorem c6_singleton_witness : find_track_file ["only.wav"] 2 = some "only.wav" :=
  c6_singleton_amended "only.wav" 2 (by decide) (by decide)

/-- C7 (confirmed): under a successful parse, the emitted `TRACK` header
lines are exactly `"  TRACK "` followed by the zero-padded numbers
`1..N` in order, where `N` counts the timestamped track lines of the
input — independent of any numbering present in the lines themselves. -/
theorem c7_track_numbering (oaf : Bool) (contents ls : List String)
    (h : parse_input_file oaf contents = .ok ls) :
    ls.filter (fun s => pyStartsWith s "  TRACK ") =
      (List.range (contents.filter isTrackCand).length).map
        (fun i => trackHeaderLine (1 + i)) := by
  have hh := parse_go_headers oaf contents 1 [] ls h
  simpa using hh

/-- C7 (witness): two timestamped lines (with out-of-order timestamps)
yield headers numbered 01 and 02. -/
theorem c7_track_numbering_witness :
    ∃ ls, parse_input_file true ["9:59 A - B", "", "0:02 C - D"] = .ok ls ∧
      ls.filter (fun s => pyStartsWith s "  TRACK ") =
        ["  TRACK 01 AUDIO", "  TRACK 02 AUDIO"] := by
  refine ⟨_, rfl, ?_⟩
  rw [c7_track_numbering true ["9:59 A - B", "", "0:02 C - D"] _ rfl]
  rfl

/-- C8 (counterexample): the claimed prefix pattern omits the leading
`\s*` of both substitutions — on the filename `" 1-x"` the code removes
the whitespace-led prefix `" 1-"` and keeps `"x"`, while the claimed
normalizer removes nothing and, after the character strip, keeps
`"1-x"`. -/
theorem c8_strip_counterexample :
    outStem " 1-x" 1 "T" = "x" ∧
    claimStripLeadingTrackNumber " 1-x" 1 "T" = "1-x" := ⟨rfl, rfl⟩

/-- C8 (amended): for a positive track number the base name is obtained
by removing a prefix of optional whitespace, optional leading zeros, the
digits of the number and a non-empty delimiter run, then a remaining
prefix of the same shape with a whitespace run; the stem then drops the
extension, the track title is substituted for an empty stem (also for the
bare `"."` base name, whose `pathlib` stem is empty), and the disallowed
filename characters plus surrounding whitespace are stripped; the claim's
two concrete examples hold for the base name. -/
theorem c8_strip_amended (name ttitle : String) (tn : Nat) (h : 0 < tn) :
    stripPrefixSub2 tn (stripPrefixSub1 tn name) =
        claimStripBaseAmended tn name ∧
    outStem name tn ttitle =
      sanitize_filename
        (if pathStem (claimStripBaseAmended tn name) = "" then ttitle
         else pathStem (claimStripBaseAmended tn name)) ∧
    stripPrefixSub2 1 (stripPrefixSub1 1 "01 - Foo.wav") = "Foo.wav" ∧
    stripPrefixSub2 1 (stripPrefixSub1 1 "1_Song Title.flac") =
        "Song Title.flac" ∧
    stripPrefixSub2 1 (stripPrefixSub1 1 "1-01 .") = "." ∧
    outStem "1-01 ." 1 "The Title" = "The Title" := by
  have htn : tn ≠ 0 := Nat.pos_iff_ne_zero.mp h
  have hbase : stripPrefixSub2 tn (stripPrefixSub1 tn name) =
      claimStripBaseAmended tn name := by
    unfold stripPrefixSub1 stripPrefixSub2 claimStripBaseAmended
    rw [subNumPrefix_eq_claim isDelim tn name htn,
      subNumPrefix_eq_claim isPyWs tn _ htn]
  refine ⟨hbase, ?_, rfl, rfl, rfl, rfl⟩
  show sanitize_filename
      (if (if pathStem (stripPrefixSub2 tn (stripPrefixSub1 tn name)) = ""
            then ttitle
            else pathStem (stripPrefixSub2 tn (stripPrefixSub1 tn name))) = ""
       then ttitle
       else if pathStem (stripPrefixSub2 tn (stripPrefixSub1 tn name)) = ""
            then ttitle
            else pathStem (stripPrefixSub2 tn (stripPrefixSub1 tn name))) = _
  rw [hbase]
  by_cases hp : pathStem (claimStripBaseAmended tn name) = ""
  · rw [if_pos hp, ite_self]
  · rw [if_neg hp, if_neg hp]

/-- C8 (witness): the amended statement at the counterexample's inputs,
including the title substitution on the empty-stem base name `"."`. -/
theorem c8_strip_witness :
    stripPrefixSub2 1 (stripPrefixSub1 1 " 1-x") =
        claimStripBaseAmended 1 " 1-x" ∧
    outStem " 1-x" 1 "T" =
      sanitize_filename
        (if pathStem (claimStripBaseAmended 1 " 1-x") = "" then "T"
         else pathStem (claimStripBaseAmended 1 " 1-x")) ∧
    stripPrefixSub2 1 (stripPrefixSub1 1 "01 - Foo.wav") = "Foo.wav" ∧
    stripPrefixSub2 1 (stripPrefixSub1 1 "1_Song Title.flac") =
        "Song Title.flac" ∧
    stripPrefixSub2 1 (stripPrefixSub1 1 "1-01 .") = "." ∧
    outStem "1-01 ." 1 "The Title" = "The Title" :=
  c8_strip_amended " 1-x" "T" 1 (by decide)

/-- C9 (confirmed): if any line of the input is a track line whose
timestamp token raises the `Invalid timestamp` exception, the whole
generation aborts — `parse_input_file` returns the error (discarding all
accumulated output, so no later track records survive) and the `__main__`
write step produces no output sheet at all. -/
theorem c9_failfast (oaf : Bool) (contents : List String)
    (h : ∃ l ∈ contents, l ≠ "" ∧ is_timestamp (firstTok l) = true ∧
      ∃ m, get_min_sec_from_timestamp (firstTok l) =
        .error (.invalidTimestamp m)) :
    (∃ e, parse_input_file oaf contents = .error e) ∧
    generate_output oaf contents = none := by
  obtain ⟨l, hl, hne, hts, m, hm⟩ := h
  obtain ⟨e, he⟩ := parse_go_error_of_mem oaf contents 1 []
    ⟨l, hl, hne, hts, .invalidTimestamp m, hm⟩
  refine ⟨⟨e, he⟩, ?_⟩
  unfold generate_output
  show (parse_go oaf 1 [] contents).toOption = none
  rw [he]
  rfl

/-- C9 (witness): a tracklist whose second line carries the unsplittable
token `"0:0:0:7"` aborts the generation with no output. -/
theorem c9_failfast_witness :
    (∃ e, parse_input_file true ["Title: T", "0:0:0:7 A - B"] = .error e) ∧
    generate_output true ["Title: T", "0:0:0:7 A - B"] = none :=
  c9_failfast true ["Title: T", "0:0:0:7 A - B"]
    ⟨"0:0:0:7 A - B", by simp, by decide, by decide,
      "Invalid timestamp: 0:0:0:7", rfl⟩

/-- C10 (confirmed): a non-empty line whose first space-delimited token
is all digits-or-colons but does not split into exactly two or three
colon fields — a line starting with a space (empty first token) or a bare
digit run among them — is treated as a track entry: the timestamp
conversion raises the `Invalid timestamp` exception and the entire
generation aborts. -/
theorem c10_malformed_token (oaf : Bool) (contents : List String)
    (l : String) (hmem : l ∈ contents) (hne : l ≠ "")
    (hts : is_timestamp (firstTok l) = true)
    (h2 : (pySplit (firstTok l) ":").length ≠ 2)
    (h3 : (pySplit (firstTok l) ":").length ≠ 3) :
    get_min_sec_from_timestamp (firstTok l) =
      .error (.invalidTimestamp ("Invalid timestamp: " ++ firstTok l)) ∧
    ∃ e, parse_input_file oaf contents = .error e := by
  have herr : get_min_sec_from_timestamp (firstTok l) =
      .error (.invalidTimestamp ("Invalid timestamp: " ++ firstTok l)) := by
    unfold get_min_sec_from_timestamp
    rw [if_neg h2, if_neg h3]
  exact ⟨herr,
    parse_go_error_of_mem oaf contents 1 [] ⟨l, hmem, hne, hts, _, herr⟩⟩

/-- C10 (witness): the bare digit run `"1234 foo"` and a line beginning
with a space both abort the generation. -/
theorem c10_malformed_token_witness :
    (get_min_sec_from_timestamp (firstTok "1234 foo") =
      .error (.invalidTimestamp ("Invalid timestamp: " ++ firstTok "1234 foo")) ∧
    ∃ e, parse_input_file true ["1234 foo"] = .error e) ∧
    (get_min_sec_from_timestamp (firstTok " leading space") =
      .error
        (.invalidTimestamp ("Invalid timestamp: " ++ firstTok " leading space")) ∧
    ∃ e, parse_input_file false [" leading space"] = .error e) :=
  ⟨c10_malformed_token true ["1234 foo"] "1234 foo"
      (by simp) (by decide) (by decide) (by decide) (by decide),
    c10_malformed_token false [" leading space"] " leading space"
      (by simp) (by decide) (by decide) (by decide) (by decide)⟩

end UsefulScripts
